import Mathlib

/-!
# Interview app: transcript engine and session controller

A shallow embedding of `frontend/src/hooks/useSpeechToText.js` and
`frontend/src/hooks/useInterview.js`, with the properties of the two hooks
stated and proved over it.

Texts are lists of characters.  The regular expressions built by
`correctTechnicalTerms` have the fixed shape `\bKEY\b` with flags `gi`, where
every `KEY` of the table consists of ASCII letters, digits and spaces only, so
the embedding of a regular expression is a literal with two word-boundary
assertions.  A character outside the Basic Multilingual Plane is two code
units in JavaScript and one `Char` here; neither is a word character nor
matches a character of a key, so the scan treats both in the same way.

The remote service is a record of outcomes, one per endpoint, for the calls of
one operation; an operation of the controller maps the state before it to the
state once it has settled, the value it resolves to and the calls it issued.
-/

namespace InterviewApp

/-! ## Regular expressions of the form `\bKEY\b` with flags `gi` -/

/-- The word characters of `\b` and `\w` (without the `u` flag): `[A-Za-z0-9_]`. -/
def isWordChar (c : Char) : Bool :=
  ('a' ≤ c && c ≤ 'z') || ('A' ≤ c && c ≤ 'Z') || ('0' ≤ c && c ≤ '9') || c == '_'

/-- Case folding of the `i` flag (without the `u` flag), on the characters that
can meet an ASCII pattern character: an ASCII lower-case letter folds to its
upper-case letter; every other ASCII character folds to itself; a non-ASCII
character never folds to an ASCII one, and is kept as it is. -/
def canonicalize (c : Char) : Char :=
  if 'a' ≤ c && c ≤ 'z' then Char.ofNat (c.toNat - 32) else c

/-- The assertion `\b` between two neighbouring characters (`none` is the start
or the end of the text): exactly one of the two sides is a word character. -/
def wordBoundary (before after : Option Char) : Bool :=
  (match before with | some c => isWordChar c | none => false) !=
  (match after with | some c => isWordChar c | none => false)

/-- Matching the literal `pat` at the head of `text`, ignoring case.  Returns
the last character consumed and the rest of the text. -/
def matchLiteral : List Char → Option Char → List Char → Option (Option Char × List Char)
  | [], last, text => some (last, text)
  | _ :: _, _, [] => none
  | p :: ps, _, c :: cs =>
    if canonicalize p == canonicalize c then matchLiteral ps (some c) cs else none

/-- One attempt of `\bpat\b` at a position: `prev` is the character before the
position, `text` the text from the position on. -/
def regexMatchAt (pat : List Char) (prev : Option Char) (text : List Char) : Bool :=
  wordBoundary prev text.head? &&
  (match matchLiteral pat prev text with
   | some (last, rest) => wordBoundary last rest.head?
   | none => false)

/-- The scan of `String.prototype.replace` with a global regular expression
`\bpat\b`: the leftmost match is replaced and the search resumes at its end.
`skip` counts the characters of the current match still to be consumed. -/
def replaceGo (pat repl : List Char) : Option Char → Nat → List Char → List Char
  | _, _, [] => []
  | _, skip + 1, c :: cs => replaceGo pat repl (some c) skip cs
  | prev, 0, c :: cs =>
    if regexMatchAt pat prev (c :: cs) then
      repl ++ replaceGo pat repl (some c) (pat.length - 1) cs
    else
      c :: replaceGo pat repl (some c) 0 cs

/-- The call `text.replace(new RegExp("\\b" + wrong + "\\b", "gi"), right)` for
a non-empty `wrong` without regular-expression or replacement metacharacters. -/
def replaceAll (wrong right : String) (text : List Char) : List Char :=
  replaceGo wrong.data right.data none 0 text

/-! ## `correctTechnicalTerms` -/

/-- The object literal `corrections`, in the order of `Object.entries`
(insertion order: no key is an array index). -/
def corrections : List (String × String) :=
  [ ("lang chain", "LangChain"),
    ("langchain", "LangChain"),
    ("lang graph", "LangGraph"),
    ("langgraph", "LangGraph"),
    ("lang smith", "LangSmith"),
    ("langsmith", "LangSmith"),
    ("chroma db", "ChromaDB"),
    ("chromadb", "ChromaDB"),
    ("chroma", "Chroma"),
    ("pine cone", "Pinecone"),
    ("pinecone", "Pinecone"),
    ("open ai", "OpenAI"),
    ("openai", "OpenAI"),
    ("gpt 4", "GPT-4"),
    ("gpt4", "GPT-4"),
    ("gpt 4 oh", "GPT-4o"),
    ("gpt for oh", "GPT-4o"),
    ("fast api", "FastAPI"),
    ("fastapi", "FastAPI"),
    ("pi dantic", "Pydantic"),
    ("pydantic", "Pydantic"),
    ("state graph", "StateGraph"),
    ("stategraph", "StateGraph"),
    ("type dict", "TypedDict"),
    ("typeddict", "TypedDict"),
    ("hit l", "HITL"),
    ("hitl", "HITL"),
    ("human in the loop", "human-in-the-loop"),
    ("rag", "RAG"),
    ("r a g", "RAG"),
    ("llm", "LLM"),
    ("l l m", "LLM"),
    ("nlp", "NLP"),
    ("n l p", "NLP"),
    ("api", "API"),
    ("a p i", "API"),
    ("hugging face", "Hugging Face"),
    ("huggingface", "Hugging Face"),
    ("tensor flow", "TensorFlow"),
    ("tensorflow", "TensorFlow"),
    ("pie torch", "PyTorch"),
    ("pytorch", "PyTorch"),
    ("scikit learn", "scikit-learn"),
    ("sklearn", "scikit-learn") ]

/-- The loop of `correctTechnicalTerms` over a table: `corrected` starts as the
text and every entry rewrites it in turn. -/
def correctWith (table : List (String × String)) (text : List Char) : List Char :=
  table.foldl (fun corrected entry => replaceAll entry.1 entry.2 corrected) text

/-- The function `correctTechnicalTerms` on the characters of the text. -/
def correctChars (text : List Char) : List Char :=
  correctWith corrections text

/-- The function `correctTechnicalTerms`. -/
def correctTechnicalTerms (text : String) : String :=
  ⟨correctChars text.data⟩

/-! ## Whole-word occurrences, stated on positions of the text -/

/-- Two characters are the same ignoring case: they are the same character, or
one is an ASCII capital letter (code 65 to 90) and the other is its small
letter (the code 32 higher). -/
def sameIgnoringCase (a b : Char) : Bool :=
  a == b ||
  (65 ≤ a.toNat && a.toNat ≤ 90 && b.toNat == a.toNat + 32) ||
  (65 ≤ b.toNat && b.toNat ≤ 90 && a.toNat == b.toNat + 32)

/-- Equality of two texts ignoring case: the same length, and character by
character the same ignoring case. -/
def equalIgnoringCase : List Char → List Char → Bool
  | [], [] => true
  | a :: as, b :: bs => sameIgnoringCase a b && equalIgnoringCase as bs
  | _, _ => false

/-- The key `key` occurs in `text` at index `i` as a whole word, ignoring case:
the `key.length` characters from `i` on equal the key ignoring case, and there
is a word boundary right before and right after them. -/
def occursAt (key text : List Char) (i : Nat) : Bool :=
  let pre := text.take i
  let mid := (text.drop i).take key.length
  let post := text.drop (i + key.length)
  equalIgnoringCase mid key &&
    wordBoundary pre.getLast? mid.head? && wordBoundary mid.getLast? post.head?

/-- The key occurs somewhere in the text as a whole word, ignoring case. -/
def occursWholeWord (key text : List Char) : Bool :=
  (List.range (text.length + 1)).any (occursAt key text)

/-- Every whole-word occurrence of the key in the text, ignoring case, is
already written exactly as `right`. -/
def spelledAs (key right text : List Char) : Bool :=
  (List.range (text.length + 1)).all
    (fun i => !occursAt key text i || (text.drop i).take key.length == right)

/-- The keys of the table and their positions in the iteration order. -/
def keyOrder : List (Nat × String) :=
  (corrections.map Prod.fst).enum

/-- The text `a` is a contiguous part of `b`. -/
def isSubstring (a b : List Char) : Bool :=
  (List.range (b.length + 1)).any (fun i => (b.drop i).take a.length == a)

/-- The pairs of keys `(k1, k2)` with `k1` a proper substring of `k2` that the
loop visits in the order `k1`, `k2`. -/
def shadowedPairs : List (String × String) :=
  (keyOrder.flatMap (fun p => keyOrder.map (fun q => (p, q)))).filterMap
    (fun pq => if pq.1.2 != pq.2.2 && isSubstring pq.1.2.data pq.2.2.data && pq.1.1 < pq.2.1
               then some (pq.1.2, pq.2.2) else none)

/-! ## Notions for the analysis of one pass of the loop -/

/-- Whether the neighbouring character is a word character (`none` is the
start or the end of the text). -/
def wordBefore (prev : Option Char) : Bool :=
  match prev with
  | some c => isWordChar c
  | none => false

/-- A text delimited by word characters: it is not empty and its first and its
last character are word characters.  Every key and every replacement of the
table is such a text. -/
def goodKey (q : List Char) : Bool :=
  wordBefore q.head? && wordBefore q.getLast?

/-- The last character of `pre`, or `prev` when `pre` is empty. -/
def lastOr (prev : Option Char) (pre : List Char) : Option Char :=
  match pre.getLast? with
  | some c => some c
  | none => prev

/-- Every position of `x` at which the scan finds the pattern `q` as a whole
word, ignoring case, holds the text `c`; `prev` is the character before `x`. -/
def WrittenAs (q c : List Char) (prev : Option Char) (x : List Char) : Prop :=
  ∀ pre rest, x = pre ++ rest → regexMatchAt q (lastOr prev pre) rest = true →
    rest.take q.length = c

/-- The pattern `q` can lie on the text `r` that is followed by no word
character: on their common length the two are equal ignoring case; where `q`
is the longer, its character after `r` is no word character; and where `r` is
the longer, its character after `q` is no word character. -/
def alignOk (q r : List Char) : Bool :=
  ((q.take (min q.length r.length)).map canonicalize ==
    (r.take (min q.length r.length)).map canonicalize) &&
  (!(decide (r.length < q.length)) || !wordBefore (q.drop r.length).head?) &&
  (!(decide (q.length < r.length)) || !wordBefore (r.drop q.length).head?)

/-- A whole-word occurrence of `q` can start at the offset `e` of a replacement
text `r` that a pass has written. -/
def touchIn (q r : List Char) (e : Nat) : Bool :=
  !wordBefore (r.take e).getLast? && alignOk q (r.drop e)

/-- A whole-word occurrence of `q` can start `d` characters before a
replacement text `r` that a pass has written, and reach into it. -/
def touchAt (q r : List Char) (d : Nat) : Bool :=
  !wordBefore (q.take d).getLast? && alignOk (q.drop d) r

/-- The pass that rewrites `k` to `r` cannot produce an occurrence of `q` that
is not written `c`: an occurrence of `q` that starts before a replacement and
reaches into it needs the text before the pass to hold an occurrence of one of
the patterns `absent`; and an occurrence of `q` that starts in a replacement
lies within it and is written `c`. -/
def compatible (k r q c : List Char) (absent : List (List Char)) : Bool :=
  (List.range q.length).all
    (fun d => d == 0 || !touchAt q r d || absent.contains (q.take d ++ k)) &&
  (List.range r.length).all
    (fun e => !touchIn q r e ||
      (decide (e + q.length ≤ r.length) && (r.drop e).take q.length == c))

/-- The replacement equals the key ignoring case: the pass changes the case
of characters only. -/
def caseOnly (k r : List Char) : Bool :=
  r.map canonicalize == k.map canonicalize

/-- The pass of the entry `e` keeps the occurrences of the pattern `p.1`
written `p.2`: it is compatible with the pattern, or it changes case only and
the pattern, for want of the right length, cannot be written `p.2` at all. -/
def passOk (absent : List (List Char)) (e : String × String)
    (p : List Char × List Char) : Bool :=
  compatible e.1.data e.2.data p.1 p.2 absent ||
    (caseOnly e.1.data e.2.data && p.1.length != p.2.length)

/-- The check of a table against the patterns already settled: every entry
has a key and a replacement delimited by word characters, its pass keeps every
settled pattern as it is written, and writes its own key as its replacement;
the entry then is settled for the entries after it. -/
def tableOk (absent : List (List Char)) :
    List (String × String) → List (List Char × List Char) → Bool
  | [], _ => true
  | e :: rest, settled =>
    goodKey e.1.data && goodKey e.2.data &&
    settled.all (passOk absent e) &&
    compatible e.1.data e.2.data e.1.data e.2.data [] &&
    tableOk absent rest ((e.1.data, e.2.data) :: settled)

/-- The check that every key of a table, standing alone, is rewritten to its
listed spelling: the key is delimited by word characters and, unless it is the
key `except`, no key of an entry `before` it occurs in it and the entries
after it leave its listed spelling as it is. -/
def standAloneOk (except : String) :
    List (String × String) → List (String × String) → Bool
  | _, [] => true
  | before, e :: rest =>
    goodKey e.1.data &&
    (e.1 == except ||
      (before.all (fun b => !occursWholeWord b.1.data e.1.data) &&
        correctWith rest e.2.data == e.2.data)) &&
    standAloneOk except (before ++ [e]) rest

/-! ## The recognition result handler of `useSpeechToText` -/

/-- One `SpeechRecognitionResult`: its `isFinal` flag and the transcript of its
first alternative, `result[0].transcript` (a result holds at least one
alternative; the handler reads no other). -/
structure SpeechRecognitionResult where
  isFinal : Bool
  transcript : String
deriving DecidableEq, Repr

/-- One `SpeechRecognitionEvent` delivered to `recognition.onresult`. -/
structure SpeechRecognitionEvent where
  resultIndex : Nat
  results : List SpeechRecognitionResult
deriving DecidableEq, Repr

/-- The state cells of the hook `useSpeechToText`; `recognitionRef` tells
whether `recognitionRef.current` holds a recognition object. -/
structure SpeechState where
  transcript : String
  interimTranscript : String
  isRecording : Bool
  error : Option String
  recognitionRef : Bool
deriving DecidableEq, Repr

/-- The body of the `for` loop of `recognition.onresult` at index `i`, on the
pair of locals `(finalTranscript, interim)`. -/
def onresultStep (results : List SpeechRecognitionResult) (acc : String × String) (i : Nat) :
    String × String :=
  match results[i]? with
  | none => acc
  | some result =>
    if result.isFinal then
      (acc.1 ++ (correctTechnicalTerms result.transcript ++ " "), acc.2)
    else
      (acc.1, acc.2 ++ result.transcript)

/-- The loop `for (let i = event.resultIndex; i < event.results.length; i++)`
of `recognition.onresult`, from `finalTranscript = ''` and `interim = ''`. -/
def onresultLoop (event : SpeechRecognitionEvent) : String × String :=
  (List.range' event.resultIndex (event.results.length - event.resultIndex)).foldl
    (onresultStep event.results) ("", "")

/-- The handler `recognition.onresult`. -/
def onresult (s : SpeechState) (event : SpeechRecognitionEvent) : SpeechState :=
  let acc := onresultLoop event
  let s1 := if acc.1 ≠ "" then { s with transcript := s.transcript ++ acc.1 } else s
  { s1 with interimTranscript := acc.2 }

/-- The pieces of text written one after the other. -/
def concatAll (pieces : List String) : String :=
  pieces.foldr (fun piece rest => piece ++ rest) ""

/-- The text one event adds to the finalized transcript, as the specification
words it: for each final result at index `resultIndex` or above, in order, its
corrected transcript followed by one space. -/
def finalizedTextOf (event : SpeechRecognitionEvent) : String :=
  concatAll (((event.results.drop event.resultIndex).filter (fun r => r.isFinal)).map
    (fun r => correctTechnicalTerms r.transcript ++ " "))

/-- The interim text of one event: the raw transcripts of the non-final results
at index `resultIndex` or above, in order. -/
def interimTextOf (event : SpeechRecognitionEvent) : String :=
  concatAll (((event.results.drop event.resultIndex).filter (fun r => !r.isFinal)).map
    (fun r => r.transcript))

/-- The raw transcripts of all the non-final results an event carries, in
order, whatever their index. -/
def allInterimTextOf (event : SpeechRecognitionEvent) : String :=
  concatAll ((event.results.filter (fun r => !r.isFinal)).map (fun r => r.transcript))

/-! ## The session controller `useInterview` -/

/-- The values of `status`. -/
inductive Status where
  | idle | starting | questioning | recording | assessing | complete
deriving DecidableEq, Repr

/-- The response of `POST /interview/start`, kept as `session`; `thread_id` is
`none` when the field is absent. -/
structure Session where
  thread_id : Option String
  topic : String
deriving DecidableEq, Repr

/-- The value of `currentQuestion`; `question_number` is `none` when the field
is absent, and else a natural number that is a JavaScript number. -/
structure Question where
  question : String
  question_number : Option Nat
  is_followup : Bool
deriving DecidableEq, Repr

/-- The response of `POST /interview/answer`. -/
structure AnswerResponse where
  body : String
deriving DecidableEq, Repr

/-- The response of `POST /interview/approve`. -/
structure ApproveResponse where
  next_question : Option String
  has_followup : Bool
deriving DecidableEq, Repr

/-- The response of `GET /interview/assessment`. -/
structure Assessment where
  overall_score : Nat
  total_questions : Nat
  summary : String
deriving DecidableEq, Repr

/-- The error a rejected remote call throws; `message` is `none` when the
thrown value has none. -/
structure ApiError where
  message : Option String
deriving DecidableEq, Repr

/-- The remote calls of `api/client.js` the controller issues. -/
inductive RemoteCall where
  | startInterview (topic : String) (useMaterials : Bool)
  | getQuestion (threadId : String)
  | submitAnswer (threadId : String) (transcript : String)
  | approveAssessment (threadId : String) (action : String)
  | getAssessment (threadId : String)
  | endSession (threadId : String)
deriving DecidableEq, Repr

/-- The outcomes of the remote calls during one operation of the controller. -/
structure Remote where
  startInterview : String → Bool → Except ApiError Session
  getQuestion : String → Except ApiError Question
  submitAnswer : String → String → Except ApiError AnswerResponse
  approveAssessment : String → String → Except ApiError ApproveResponse
  getAssessment : String → Except ApiError Assessment
  endSession : String → Except ApiError Unit

/-- The state cells of the hook `useInterview`. -/
structure InterviewState where
  session : Option Session
  currentQuestion : Option Question
  assessment : Option Assessment
  isLoading : Bool
  error : Option String
  status : Status
deriving DecidableEq, Repr

/-- The initial values of the state cells. -/
def InterviewState.initial : InterviewState :=
  { session := none, currentQuestion := none, assessment := none,
    isLoading := false, error := none, status := .idle }

/-- What one operation of the controller leaves behind: the state once it has
settled, the value it resolves to (`none` for `null`) and the remote calls it
issued, in order. -/
structure Outcome (α : Type) where
  state : InterviewState
  result : Option α
  calls : List RemoteCall

/-- The expression `session?.thread_id` when it is truthy: the session exists
and its `thread_id` is a non-empty string. -/
def threadIdOf (session : Option Session) : Option String :=
  match session with
  | none => none
  | some sess =>
    match sess.thread_id with
    | none => none
    | some tid => if tid = "" then none else some tid

/-- The expression `err.message || fallback`. -/
def messageOr (err : ApiError) (fallback : String) : String :=
  match err.message with
  | none => fallback
  | some m => if m = "" then fallback else m

/-- The white space and line terminators that `String.prototype.trim` strips. -/
def isJsWhiteSpace (c : Char) : Bool :=
  let n := c.toNat
  n == 0x09 || n == 0x0A || n == 0x0B || n == 0x0C || n == 0x0D || n == 0x20 ||
  n == 0xA0 || n == 0x1680 || (0x2000 ≤ n && n ≤ 0x200A) || n == 0x2028 ||
  n == 0x2029 || n == 0x202F || n == 0x205F || n == 0x3000 || n == 0xFEFF

/-- The method `String.prototype.trim`. -/
def trim (text : String) : String :=
  ⟨((text.data.dropWhile isJsWhiteSpace).reverse.dropWhile isJsWhiteSpace).reverse⟩

/-- The test `!transcript?.trim()`: the transcript is null or trims to the
empty string. -/
def isBlankAnswer (transcript : Option String) : Bool :=
  match transcript with
  | none => true
  | some t => trim t == ""

/-- The expression `prev?.question_number || fallback`. -/
def questionNumberOr (prev : Option Question) (fallback : Nat) : Nat :=
  match prev with
  | none => fallback
  | some q =>
    match q.question_number with
    | none => fallback
    | some n => if n = 0 then fallback else n

/-- The unit in the last place of the JavaScript number (an IEEE 754 double,
with a mantissa of 53 bits) nearest to the natural number `m`: 1 below 2^53,
and doubled with every further bit of `m`.  The first argument bounds the
number of halvings; `m` itself is enough. -/
def ulpOf : Nat → Nat → Nat
  | 0, _ => 1
  | fuel + 1, m => if m < 2 ^ 53 then 1 else 2 * ulpOf fuel (m / 2)

/-- The JavaScript number nearest to the natural number `m`: `m` rounded to a
multiple of its unit in the last place, a tie going to the even mantissa.
Numbers beyond the largest finite double are outside the model. -/
def roundToNumber (m : Nat) : Nat :=
  let unit := ulpOf m m
  let q := m / unit
  let r := m % unit
  if 2 * r < unit then q * unit
  else if unit < 2 * r then (q + 1) * unit
  else if q % 2 = 0 then q * unit else (q + 1) * unit

/-- The operator `+` on two natural numbers that are JavaScript numbers: the
exact sum, rounded to the nearest JavaScript number. -/
def jsAdd (a b : Nat) : Nat :=
  roundToNumber (a + b)

/-- The state of `submitAnswer` when it issues its first remote call. -/
def submitAnswerPending (s : InterviewState) : InterviewState :=
  { s with isLoading := true, error := none, status := .assessing }

/-- The updater passed to `setCurrentQuestion` in `submitAnswer`. -/
def nextQuestionOf (prev : Option Question) (questionData : Question) : Question :=
  { questionData with
    question_number :=
      some (if questionData.is_followup then questionNumberOr prev 1
            else jsAdd (questionNumberOr prev 0) 1) }

/-- The operation `submitAnswer`. -/
def submitAnswer (remote : Remote) (s : InterviewState) (transcript : Option String) :
    Outcome AnswerResponse :=
  match threadIdOf s.session with
  | none =>
    { state := { s with error := some "No active session. Please start a new interview." },
      result := none, calls := [] }
  | some threadId =>
    if isBlankAnswer transcript then
      { state := { s with error := some "Please provide an answer before submitting." },
        result := none, calls := [] }
    else
      let text := transcript.getD ""
      let s1 := submitAnswerPending s
      match remote.submitAnswer threadId text with
      | .ok response =>
        let s2 :=
          match remote.getQuestion threadId with
          | .ok questionData =>
            { s1 with currentQuestion := some (nextQuestionOf s1.currentQuestion questionData) }
          | .error _ => s1
        { state := { s2 with status := .questioning, isLoading := false },
          result := some response,
          calls := [.submitAnswer threadId text, .getQuestion threadId] }
      | .error err =>
        { state := { s1 with
            error := some (messageOr err "Failed to submit answer. Please try again."),
            status := .questioning, isLoading := false },
          result := none,
          calls := [.submitAnswer threadId text] }

/-- The state of `approveAssessment` when it issues its remote call. -/
def approveAssessmentPending (s : InterviewState) : InterviewState :=
  { s with isLoading := true, error := none }

/-- The test `response.next_question` for truthiness: the field holds a
non-empty string. -/
def nextQuestionText (response : ApproveResponse) : Option String :=
  match response.next_question with
  | none => none
  | some q => if q = "" then none else some q

/-- The operation `approveAssessment`. -/
def approveAssessment (remote : Remote) (s : InterviewState) (action : String) :
    Outcome ApproveResponse :=
  match threadIdOf s.session with
  | none =>
    { state := { s with error := some "No active session" }, result := none, calls := [] }
  | some threadId =>
    let s1 := approveAssessmentPending s
    match remote.approveAssessment threadId action with
    | .ok response =>
      let s2 :=
        if action = "end_interview" then { s1 with status := .complete }
        else
          match nextQuestionText response with
          | some text =>
            { s1 with
              currentQuestion := some
                { question := text,
                  question_number := some (jsAdd (questionNumberOr s.currentQuestion 0) 1),
                  is_followup := response.has_followup },
              status := .questioning }
          | none => s1
      { state := { s2 with isLoading := false }, result := some response,
        calls := [.approveAssessment threadId action] }
    | .error err =>
      { state := { s1 with error := some (messageOr err "Failed to process approval"),
                           isLoading := false },
        result := none,
        calls := [.approveAssessment threadId action] }

/-- The answer text is missing, empty, or consists of white space only. -/
def whitespaceOnly (transcript : Option String) : Bool :=
  match transcript with
  | none => true
  | some t => t.data.all isJsWhiteSpace

/-! ## Sample values of the worked examples -/

/-- A session as the service issues it. -/
def sampleSession : Session :=
  { thread_id := some "thread-1", topic := "Graph Algorithms" }

/-- A controller in status `questioning` whose current question has the
ordinal `n`. -/
def sampleState (n : Nat) : InterviewState :=
  { session := some sampleSession,
    currentQuestion := some { question := "What is BFS?", question_number := some n,
                              is_followup := false },
    assessment := none, isLoading := false, error := none, status := .questioning }

/-- A service that accepts every call and answers `getQuestion` with `q` and
`approveAssessment` with `r`. -/
def sampleRemote (q : Question) (r : ApproveResponse) : Remote :=
  { startInterview := fun _ _ => .ok sampleSession,
    getQuestion := fun _ => .ok q,
    submitAnswer := fun _ _ => .ok { body := "ok" },
    approveAssessment := fun _ _ => .ok r,
    getAssessment := fun _ => .ok { overall_score := 7, total_questions := 3, summary := "" },
    endSession := fun _ => .ok () }

/-- A service whose every call fails with the message `m`. -/
def failingRemote (m : Option String) : Remote :=
  { startInterview := fun _ _ => .error { message := m },
    getQuestion := fun _ => .error { message := m },
    submitAnswer := fun _ _ => .error { message := m },
    approveAssessment := fun _ _ => .error { message := m },
    getAssessment := fun _ => .error { message := m },
    endSession := fun _ => .error { message := m } }

/-- A service that creates the session but fails on every later call, with the
message `m`. -/
def questionlessRemote (m : Option String) : Remote :=
  { failingRemote m with startInterview := fun _ _ => .ok sampleSession }

/-- A service that accepts the answer and fails on every other call, with the
message `m`. -/
def answerOnlyRemote (m : Option String) : Remote :=
  { failingRemote m with submitAnswer := fun _ _ => .ok { body := "ok" } }

/-! ## The other operations of `useInterview` -/

/-- The text a template literal gives for `response.thread_id`: the string
itself, or `undefined` for an absent field. -/
def threadIdText (threadId : Option String) : String :=
  threadId.getD "undefined"

/-- The state of `startInterview` when it issues its first remote call. -/
def startInterviewPending (s : InterviewState) : InterviewState :=
  { s with isLoading := true, error := none, status := .starting }

/-- The operation `startInterview`.  Both `await`s are inside one `try` whose
`catch` does not re-throw. -/
def startInterview (remote : Remote) (s : InterviewState) (topic : String)
    (useMaterials : Bool) : Outcome Session :=
  let s1 := startInterviewPending s
  match remote.startInterview topic useMaterials with
  | .ok response =>
    let s2 := { s1 with session := some response }
    match remote.getQuestion (threadIdText response.thread_id) with
    | .ok questionData =>
      { state := { s2 with currentQuestion := some questionData, status := .questioning,
                           isLoading := false },
        result := some response,
        calls := [.startInterview topic useMaterials,
                  .getQuestion (threadIdText response.thread_id)] }
    | .error err =>
      { state := { s2 with error := some (messageOr err "Failed to start interview"),
                           status := .idle, isLoading := false },
        result := none,
        calls := [.startInterview topic useMaterials,
                  .getQuestion (threadIdText response.thread_id)] }
  | .error err =>
    { state := { s1 with error := some (messageOr err "Failed to start interview"),
                         status := .idle, isLoading := false },
      result := none,
      calls := [.startInterview topic useMaterials] }

/-- The state of `getAssessment` when it issues its remote call. -/
def getAssessmentPending (s : InterviewState) : InterviewState :=
  { s with isLoading := true, error := none }

/-- The operation `getAssessment`. -/
def getAssessment (remote : Remote) (s : InterviewState) : Outcome Assessment :=
  match threadIdOf s.session with
  | none =>
    { state := { s with error := some "No active session" }, result := none, calls := [] }
  | some threadId =>
    let s1 := getAssessmentPending s
    match remote.getAssessment threadId with
    | .ok response =>
      { state := { s1 with assessment := some response, status := .complete,
                           isLoading := false },
        result := some response,
        calls := [.getAssessment threadId] }
    | .error err =>
      { state := { s1 with error := some (messageOr err "Failed to get assessment"),
                           isLoading := false },
        result := none,
        calls := [.getAssessment threadId] }

/-- The five setters at the end of `endInterview`. -/
def endInterviewCleared (s : InterviewState) : InterviewState :=
  { s with session := none, currentQuestion := none, assessment := none,
           status := .idle, error := none }

/-- The operation `endInterview`; it resolves to `undefined`, here `some ()`.
The outcome of the deletion is only logged. -/
def endInterview (remote : Remote) (s : InterviewState) : Outcome Unit :=
  match threadIdOf s.session with
  | some threadId =>
    match remote.endSession threadId with
    | .ok _ =>
      { state := endInterviewCleared s, result := some (), calls := [.endSession threadId] }
    | .error _ =>
      { state := endInterviewCleared s, result := some (), calls := [.endSession threadId] }
  | none =>
    { state := endInterviewCleared s, result := some (), calls := [] }

/-! ## Sequences of operations -/

/-- One call of an operation of the controller, with its arguments. -/
inductive Operation where
  | startInterview (topic : String) (useMaterials : Bool)
  | submitAnswer (transcript : Option String)
  | approveAssessment (action : String)
  | getAssessment
  | endInterview

/-- The state after one call, against the service outcomes `remote`. -/
def perform (s : InterviewState) (step : Remote × Operation) : InterviewState :=
  match step.2 with
  | .startInterview topic useMaterials => (startInterview step.1 s topic useMaterials).state
  | .submitAnswer transcript => (submitAnswer step.1 s transcript).state
  | .approveAssessment action => (approveAssessment step.1 s action).state
  | .getAssessment => (getAssessment step.1 s).state
  | .endInterview => (endInterview step.1 s).state

/-- The state after a sequence of calls, each against its own service
outcomes. -/
def run (s : InterviewState) (script : List (Remote × Operation)) : InterviewState :=
  script.foldl perform s

/-- The caller's discipline under which a report stays tied to the status
`complete`: `startInterview`, `submitAnswer` and `approveAssessment` are called
only while `assessment` is null. -/
def reportKeptLast : InterviewState → List (Remote × Operation) → Bool
  | _, [] => true
  | s, step :: rest =>
    (match step.2 with
     | .getAssessment => true
     | .endInterview => true
     | _ => s.assessment.isNone) && reportKeptLast (perform s step) rest

/-- The operation `clearError`. -/
def clearError (s : InterviewState) : InterviewState :=
  { s with error := none }

/-! ## The recording controls and the other handlers of `useSpeechToText` -/

/-- What the hook asks of the speech engine: `new SpeechRecognition()`,
`recognition.start()` and `recognition.stop()`. -/
inductive EngineCommand where
  | create | start | stop
deriving DecidableEq, Repr

/-- What one recording control leaves behind: the state cells and the commands
sent to the speech engine, in order. -/
structure SpeechOutcome where
  state : SpeechState
  commands : List EngineCommand
deriving DecidableEq, Repr

/-- The control `startRecording`; `isSupported` is the constant of the same
name.  The grammar hints are set inside a `try` and touch no state cell. -/
def startRecording (isSupported : Bool) (s : SpeechState) : SpeechOutcome :=
  if !isSupported then
    { state := { s with
        error := some "Speech recognition not supported. Please use Google Chrome." },
      commands := [] }
  else
    { state := { s with error := none, transcript := "", interimTranscript := "",
                        recognitionRef := true },
      commands := [.create, .start] }

/-- The handler `recognition.onstart`. -/
def onstart (s : SpeechState) : SpeechState :=
  { s with isRecording := true }

/-- The handler `recognition.onerror`, on the reason `event.error`. -/
def onerror (s : SpeechState) (error : String) : SpeechState :=
  if error = "not-allowed" then
    { s with error := some "Microphone access denied. Please allow microphone access.",
             isRecording := false }
  else if error = "no-speech" then s
  else if error = "aborted" then s
  else { s with error := some ("Error: " ++ error), isRecording := false }

/-- The handler `recognition.onend`. -/
def onend (s : SpeechState) : SpeechState :=
  { s with isRecording := false, interimTranscript := "" }

/-- The control `stopRecording`. -/
def stopRecording (s : SpeechState) : SpeechOutcome :=
  if s.recognitionRef then
    { state := { s with isRecording := false }, commands := [.stop] }
  else
    { state := s, commands := [] }

/-- The control `resetTranscript`. -/
def resetTranscript (s : SpeechState) : SpeechState :=
  { s with transcript := "", interimTranscript := "", error := none }

/-- A recognition session in progress with the interim hypothesis
"hello wor". -/
def sampleRecording : SpeechState :=
  { transcript := "I used LangChain ", interimTranscript := "hello wor", isRecording := true,
    error := none, recognitionRef := true }

/-! ## The function `request` of `api/client.js` -/

/-- A JSON value as `JSON.parse` gives it; numbers are integers here, and the
fields of an object have distinct names. -/
inductive JsonValue where
  | null
  | bool (b : Bool)
  | number (n : Int)
  | string (s : String)
  | array (items : List JsonValue)
  | object (fields : List (String × JsonValue))

/-- The response `fetch` resolves to: its status code and what
`response.json()` gives, `none` when the body is absent or is not JSON. -/
structure HttpResponse where
  status : Nat
  json : Option JsonValue

/-- The property `response.ok`: the status is in the range 200 to 299. -/
def HttpResponse.ok (response : HttpResponse) : Bool :=
  200 ≤ response.status && response.status ≤ 299

/-- How `request` can reject: with `new Error(message)`, with the `TypeError`
of reading a property of `null`, or with the rejection of `response.json()`. -/
inductive RequestFailure where
  | error (message : String)
  | typeError
  | jsonRejected
deriving DecidableEq, Repr

/-- The property access `error.detail`: `none` when it throws (on `null`),
`some none` for `undefined`, `some (some v)` for the value found. -/
def detailOf (error : JsonValue) : Option (Option JsonValue) :=
  match error with
  | .null => none
  | .object fields => some (fields.lookup "detail")
  | _ => some none

/-- Truthiness of a JSON value. -/
def truthy (v : JsonValue) : Bool :=
  match v with
  | .null => false
  | .bool b => b
  | .number n => n != 0
  | .string s => s != ""
  | .array _ => true
  | .object _ => true

/-- The conversion to a string that `new Error(value)` applies; `toText` is the
conversion of a value that is not a string. -/
def messageText (toText : JsonValue → String) (v : JsonValue) : String :=
  match v with
  | .string s => s
  | other => toText other

/-- The function `request`, from the response of `fetch` on. -/
def request (toText : JsonValue → String) (response : HttpResponse) :
    Except RequestFailure JsonValue :=
  if !response.ok then
    let error :=
      match response.json with
      | some body => body
      | none => JsonValue.object [("detail", .string "Unknown error")]
    match detailOf error with
    | none => .error .typeError
    | some detail =>
      match detail with
      | some v =>
        if truthy v then .error (.error (messageText toText v))
        else .error (.error ("Request failed: " ++ toString response.status))
      | none => .error (.error ("Request failed: " ++ toString response.status))
  else
    match response.json with
    | some body => .ok body
    | none => .error .jsonRejected

end InterviewApp

namespace InterviewApp

/-! ## Lemmas on characters -/

theorem char_eq_iff_toNat (a b : Char) : a = b ↔ a.toNat = b.toNat := by
  constructor
  · intro h; rw [h]
  · intro h
    have := congrArg Char.ofNat h
    simpa using this

theorem toNat_ofNat_of_lt_128 (n : Nat) (h : n < 128) : (Char.ofNat n).toNat = n := by
  have hv : n.isValidChar := Or.inl (by omega)
  unfold Char.ofNat
  rw [dif_pos hv]
  unfold Char.ofNatAux Char.toNat
  simp [UInt32.toNat, BitVec.toNat_ofNatLt]

/-- The code of the folded character. -/
theorem canonicalize_toNat (c : Char) :
    (canonicalize c).toNat = if 97 ≤ c.toNat ∧ c.toNat ≤ 122 then c.toNat - 32 else c.toNat := by
  unfold canonicalize
  have h1 : ('a' ≤ c) ↔ 97 ≤ c.toNat := Char.le_def
  have h2 : (c ≤ 'z') ↔ c.toNat ≤ 122 := Char.le_def
  by_cases h : 97 ≤ c.toNat ∧ c.toNat ≤ 122
  · have : ('a' ≤ c && c ≤ 'z') = true := by simp [h1, h2, h]
    rw [if_pos this, if_pos h]
    exact toNat_ofNat_of_lt_128 _ (by omega)
  · have : ¬ (('a' ≤ c && c ≤ 'z') = true) := by simpa [h1, h2] using h
    rw [if_neg this, if_neg h]

/-- The case folding of the scan identifies exactly the characters that are the
same ignoring case. -/
theorem canonicalize_eq_iff (a b : Char) :
    canonicalize a = canonicalize b ↔ sameIgnoringCase a b = true := by
  rw [char_eq_iff_toNat, canonicalize_toNat, canonicalize_toNat]
  simp only [sameIgnoringCase, Bool.or_eq_true, Bool.and_eq_true, beq_iff_eq, decide_eq_true_eq]
  rw [char_eq_iff_toNat a b]
  split_ifs <;> omega

theorem isWordChar_toNat (c : Char) :
    isWordChar c = decide ((97 ≤ c.toNat ∧ c.toNat ≤ 122) ∨ (65 ≤ c.toNat ∧ c.toNat ≤ 90) ∨
      (48 ≤ c.toNat ∧ c.toNat ≤ 57) ∨ c.toNat = 95) := by
  have h (a b : Char) : (a ≤ b) ↔ a.toNat ≤ b.toNat := Char.le_def
  have he : (c = '_') ↔ c.toNat = 95 := char_eq_iff_toNat c '_'
  unfold isWordChar
  rw [Bool.eq_iff_iff]
  simp only [Bool.or_eq_true, Bool.and_eq_true, decide_eq_true_eq, beq_iff_eq, h, he]
  have e1 : 'a'.toNat = 97 := rfl
  have e2 : 'z'.toNat = 122 := rfl
  have e3 : 'A'.toNat = 65 := rfl
  have e4 : 'Z'.toNat = 90 := rfl
  have e5 : '0'.toNat = 48 := rfl
  have e6 : '9'.toNat = 57 := rfl
  rw [e1, e2, e3, e4, e5, e6]
  tauto

/-- Folding the case keeps a word character a word character. -/
theorem isWordChar_canonicalize (c : Char) : isWordChar (canonicalize c) = isWordChar c := by
  rw [isWordChar_toNat, isWordChar_toNat, canonicalize_toNat]
  split_ifs with h
  · apply decide_eq_decide.mpr; omega
  · rfl

/-- Two texts are equal ignoring case exactly when their foldings are equal. -/
theorem equalIgnoringCase_iff (a : List Char) :
    ∀ b : List Char, equalIgnoringCase a b = true ↔ a.map canonicalize = b.map canonicalize := by
  induction a with
  | nil => intro b; cases b <;> simp [equalIgnoringCase]
  | cons x xs ih =>
    intro b
    cases b with
    | nil => simp [equalIgnoringCase]
    | cons y ys =>
      simp only [equalIgnoringCase, Bool.and_eq_true, List.map_cons, List.cons.injEq, ih,
        canonicalize_eq_iff]

/-! ## Lemmas on the regular-expression scan -/

theorem matchLiteral_some (pat : List Char) :
    ∀ (prev : Option Char) (text : List Char) (last : Option Char) (rest : List Char),
      matchLiteral pat prev text = some (last, rest) →
        equalIgnoringCase (text.take pat.length) pat = true ∧ rest = text.drop pat.length ∧
          (pat ≠ [] → last = (text.take pat.length).getLast?) := by
  induction pat with
  | nil =>
    intro prev text last rest h
    simp [matchLiteral] at h
    simp [equalIgnoringCase, h.2]
  | cons p ps ih =>
    intro prev text last rest h
    cases text with
    | nil => simp [matchLiteral] at h
    | cons c cs =>
      simp only [matchLiteral] at h
      split at h
      · rename_i hc
        have hc' : canonicalize p = canonicalize c := by simpa using hc
        obtain ⟨h1, h2, h3⟩ := ih (some c) cs last rest h
        refine ⟨?_, ?_, ?_⟩
        · rw [equalIgnoringCase_iff] at h1 ⊢
          simp only [List.length_cons, List.take_succ_cons, List.map_cons]
          rw [h1, hc']
        · simpa using h2
        · intro _
          cases ps with
          | nil =>
            simp [matchLiteral] at h
            simp [h.1]
          | cons q qs =>
            rw [h3 (by simp)]
            cases cs with
            | nil => simp [matchLiteral] at h
            | cons d ds => simp [List.getLast?_cons_cons]
      · simp at h

theorem matchLiteral_of_equal (pat : List Char) :
    ∀ (prev : Option Char) (text : List Char),
      equalIgnoringCase (text.take pat.length) pat = true →
        ∃ last, matchLiteral pat prev text = some (last, text.drop pat.length) := by
  induction pat with
  | nil => intro prev text _; exact ⟨prev, by simp [matchLiteral]⟩
  | cons p ps ih =>
    intro prev text h
    cases text with
    | nil => simp [equalIgnoringCase] at h
    | cons c cs =>
      rw [equalIgnoringCase_iff] at h
      simp only [List.length_cons, List.take_succ_cons, List.map_cons, List.cons.injEq] at h
      obtain ⟨last, hl⟩ := ih (some c) cs (by rw [equalIgnoringCase_iff]; exact h.2)
      refine ⟨last, ?_⟩
      simp [matchLiteral, h.1, hl]

/-- On a non-empty key, one attempt of the regular expression at a position is
a whole-word occurrence of the key at that index, ignoring case. -/
theorem regexMatchAt_eq_occursAt (pat pre rest : List Char) (hpat : pat ≠ []) :
    regexMatchAt pat pre.getLast? rest = occursAt pat (pre ++ rest) pre.length := by
  have hlen : 0 < pat.length := List.length_pos.mpr hpat
  have hhead : (rest.take pat.length).head? = rest.head? := by
    cases rest with
    | nil => simp
    | cons c cs =>
      obtain ⟨n, hn⟩ : ∃ n, pat.length = n + 1 := ⟨pat.length - 1, by omega⟩
      simp [hn]
  simp only [regexMatchAt, occursAt, List.take_left, List.drop_left, hhead]
  have hdrop : List.drop (pre.length + pat.length) (pre ++ rest) = rest.drop pat.length := by
    rw [← List.drop_drop, List.drop_left]
  rw [hdrop]
  cases hm : matchLiteral pat pre.getLast? rest with
  | none =>
    have : equalIgnoringCase (rest.take pat.length) pat = false := by
      by_contra hne
      obtain ⟨last, hl⟩ := matchLiteral_of_equal pat pre.getLast? rest (by simpa using hne)
      rw [hl] at hm; cases hm
    simp [this]
  | some lr =>
    obtain ⟨last, r⟩ := lr
    obtain ⟨h1, h2, h3⟩ := matchLiteral_some pat _ _ _ _ hm
    rw [h1, h2, h3 hpat]
    simp [Bool.and_comm]

/-- Where every whole-word occurrence of the key from index `skip` on is already
written as the replacement, the scan gives back the text it was given. -/
theorem replaceGo_eq_drop (pat repl : List Char) (hpat : pat ≠ []) :
    ∀ (text pre : List Char) (skip : Nat),
      (∀ i, skip ≤ i → i ≤ text.length →
        occursAt pat (pre ++ text) (pre.length + i) = true →
          ((pre ++ text).drop (pre.length + i)).take pat.length = repl) →
      replaceGo pat repl pre.getLast? skip text = text.drop skip := by
  intro text
  induction text with
  | nil => intro pre skip _; simp [replaceGo]
  | cons c cs ih =>
    intro pre skip h
    have hstep : ∀ k, (∀ i, k + 1 ≤ i → i ≤ (c :: cs).length →
        occursAt pat (pre ++ c :: cs) (pre.length + i) = true →
          ((pre ++ c :: cs).drop (pre.length + i)).take pat.length = repl) →
        replaceGo pat repl (some c) k cs = cs.drop k := by
      intro k hk
      have := ih (pre ++ [c]) k (by
        intro i hi1 hi2 hocc
        have := hk (i + 1) (by omega) (by simp; omega)
        simp only [List.append_assoc, List.singleton_append, List.length_append,
          List.length_singleton] at hocc ⊢
        rw [show pre.length + 1 + i = pre.length + (i + 1) by omega] at hocc ⊢
        exact this hocc)
      simpa using this
    cases skip with
    | succ k =>
      simp only [replaceGo, List.drop_succ_cons]
      exact hstep k h
    | zero =>
      simp only [replaceGo, List.drop_zero]
      have hrest := hstep (pat.length - 1) (fun i hi1 hi2 => h i (by omega) hi2)
      split
      · rename_i hm
        rw [regexMatchAt_eq_occursAt pat pre (c :: cs) hpat] at hm
        have hr := h 0 (by omega) (by omega) (by simpa using hm)
        simp only [Nat.add_zero, List.drop_left] at hr
        rw [hrest]
        obtain ⟨n, hn⟩ : ∃ n, pat.length = n + 1 :=
          ⟨pat.length - 1, by have := List.length_pos.mpr hpat; omega⟩
        rw [hn] at hr ⊢
        simp only [List.take_succ_cons, Nat.add_sub_cancel] at hr ⊢
        rw [← hr]
        simp
      · rw [hstep 0 (fun i hi1 hi2 => h i (by omega) hi2)]
        simp

/-- One pass of the loop leaves a text unchanged when every whole-word
occurrence of its key in the text is already written as its replacement. -/
theorem replaceAll_eq_self (wrong right : String) (text : List Char) (hw : wrong.data ≠ [])
    (h : spelledAs wrong.data right.data text = true) : replaceAll wrong right text = text := by
  have := replaceGo_eq_drop wrong.data right.data hw text [] 0 (by
    intro i _ hi hocc
    simp only [spelledAs, List.all_eq_true, List.mem_range] at h
    have := h i (by omega)
    simp only [List.nil_append, List.length_nil, Nat.zero_add] at hocc ⊢
    simpa [hocc] using this)
  simpa [replaceAll] using this

/-- The whole loop leaves a text unchanged when every pass does. -/
theorem correctWith_eq_self (table : List (String × String)) (text : List Char)
    (hkeys : ∀ e ∈ table, e.1.data ≠ [])
    (h : ∀ e ∈ table, spelledAs e.1.data e.2.data text = true) :
    correctWith table text = text := by
  induction table with
  | nil => rfl
  | cons e es ih =>
    simp only [correctWith, List.foldl_cons]
    rw [replaceAll_eq_self e.1 e.2 text (hkeys e (by simp)) (h e (by simp))]
    exact ih (fun e he => hkeys e (by simp [he])) (fun e he => h e (by simp [he]))

/-- A key that occurs nowhere as a whole word has, vacuously, all its
occurrences written as the replacement. -/
theorem spelledAs_of_not_occurs (key right text : List Char)
    (h : occursWholeWord key text = false) : spelledAs key right text = true := by
  simp only [occursWholeWord, List.any_eq_false, List.mem_range] at h
  simp only [spelledAs, List.all_eq_true, List.mem_range]
  intro i hi
  simp [h i hi]

/-- No key of the table is empty. -/
theorem corrections_keys_ne_nil : ∀ e ∈ corrections, e.1.data ≠ [] := by
  decide

/-! ## The scan on texts delimited by word characters -/

theorem wordBoundary_eq (a b : Option Char) :
    wordBoundary a b = (wordBefore a != wordBefore b) := by
  cases a <;> cases b <;> rfl

theorem wordBefore_map_canonicalize (o : Option Char) :
    wordBefore (o.map canonicalize) = wordBefore o := by
  cases o with
  | none => rfl
  | some c => exact isWordChar_canonicalize c

theorem wordBefore_head_of_map_eq (a b : List Char)
    (h : a.map canonicalize = b.map canonicalize) :
    wordBefore a.head? = wordBefore b.head? := by
  rw [← wordBefore_map_canonicalize a.head?, ← wordBefore_map_canonicalize b.head?,
    ← List.head?_map, ← List.head?_map, h]

theorem wordBefore_getLast_of_map_eq (a b : List Char)
    (h : a.map canonicalize = b.map canonicalize) :
    wordBefore a.getLast? = wordBefore b.getLast? := by
  rw [← wordBefore_map_canonicalize a.getLast?, ← wordBefore_map_canonicalize b.getLast?,
    ← List.getLast?_map, ← List.getLast?_map, h]

theorem goodKey_ne_nil (q : List Char) (h : goodKey q = true) : q ≠ [] := by
  intro hq; subst hq; simp [goodKey, wordBefore] at h

/-- On a pattern delimited by word characters, the scan matches at a position
exactly when the character before is no word character, the next characters
equal the pattern after folding, and the character after them is no word
character. -/
theorem regexMatchAt_iff (q : List Char) (hq : goodKey q = true) (prev : Option Char)
    (text : List Char) :
    regexMatchAt q prev text = true ↔
      wordBefore prev = false ∧
      (text.take q.length).map canonicalize = q.map canonicalize ∧
      wordBefore (text.drop q.length).head? = false := by
  have hne := goodKey_ne_nil q hq
  have hlen : 0 < q.length := List.length_pos.mpr hne
  simp only [goodKey, Bool.and_eq_true] at hq
  have hhead : (text.take q.length).head? = text.head? := by
    cases text with
    | nil => simp
    | cons c cs =>
      obtain ⟨n, hn⟩ : ∃ n, q.length = n + 1 := ⟨q.length - 1, by omega⟩
      simp [hn]
  constructor
  · intro h
    simp only [regexMatchAt, Bool.and_eq_true] at h
    obtain ⟨hb, hm⟩ := h
    cases hml : matchLiteral q prev text with
    | none => rw [hml] at hm; simp at hm
    | some lr =>
      obtain ⟨last, rest⟩ := lr
      rw [hml] at hm
      obtain ⟨h1, h2, h3⟩ := matchLiteral_some q _ _ _ _ hml
      rw [equalIgnoringCase_iff] at h1
      have hw1 := wordBefore_head_of_map_eq _ _ h1
      have hw2 := wordBefore_getLast_of_map_eq _ _ h1
      rw [hhead] at hw1
      rw [wordBoundary_eq, hw1, hq.1] at hb
      simp only at hm
      rw [wordBoundary_eq, h3 hne, hw2, hq.2, h2] at hm
      refine ⟨?_, h1, ?_⟩
      · cases hp : wordBefore prev
        · rfl
        · rw [hp] at hb; exact absurd hb (by decide)
      · cases hp : wordBefore (List.drop q.length text).head?
        · rfl
        · rw [hp] at hm; exact absurd hm (by decide)
  · rintro ⟨hp, h1, ha⟩
    have hw1 := wordBefore_head_of_map_eq _ _ h1
    have hw2 := wordBefore_getLast_of_map_eq _ _ h1
    rw [hhead] at hw1
    obtain ⟨last, hl⟩ := matchLiteral_of_equal q prev text
      ((equalIgnoringCase_iff _ _).mpr h1)
    obtain ⟨_, _, h3⟩ := matchLiteral_some q _ _ _ _ hl
    simp only [regexMatchAt, hl, Bool.and_eq_true]
    rw [wordBoundary_eq, wordBoundary_eq, hw1, hq.1, hp, h3 hne, hw2, hq.2, ha]
    exact ⟨rfl, rfl⟩

theorem lastOr_nil (p : Option Char) : lastOr p [] = p := rfl

theorem lastOr_cons (p : Option Char) (c : Char) (l : List Char) :
    lastOr p (c :: l) = lastOr (some c) l := by
  cases l with
  | nil => rfl
  | cons d ds =>
    simp only [lastOr, List.getLast?_cons_cons]
    rw [List.getLast?_eq_getLast _ (List.cons_ne_nil d ds)]

theorem lastOr_append (p : Option Char) (a b : List Char) :
    lastOr p (a ++ b) = lastOr (lastOr p a) b := by
  induction a generalizing p with
  | nil => rfl
  | cons c cs ih => rw [List.cons_append, lastOr_cons, lastOr_cons, ih]

theorem lastOr_of_ne_nil (p : Option Char) (l : List Char) (h : l ≠ []) :
    lastOr p l = l.getLast? := by
  cases hl : l.getLast? with
  | none => exact absurd (List.getLast?_eq_none_iff.mp hl) h
  | some c => simp [lastOr, hl]

/-- The scan looks at the character before a position only through its being a
word character or not. -/
theorem regexMatchAt_congr_prev (q : List Char) (hq : goodKey q = true) (p p' : Option Char)
    (h : wordBefore p = wordBefore p') (text : List Char) :
    regexMatchAt q p text = regexMatchAt q p' text := by
  rw [Bool.eq_iff_iff, regexMatchAt_iff q hq, regexMatchAt_iff q hq, h]

theorem replaceGo_congr_prev (k r : List Char) (hk : goodKey k = true) (p p' : Option Char)
    (h : wordBefore p = wordBefore p') (text : List Char) :
    replaceGo k r p 0 text = replaceGo k r p' 0 text := by
  cases text with
  | nil => simp [replaceGo]
  | cons c cs => simp only [replaceGo, regexMatchAt_congr_prev k hk p p' h]

/-- Consuming the rest of a match is dropping its characters. -/
theorem replaceGo_skip (k r : List Char) :
    ∀ (l : List Char) (n : Nat) (p : Option Char),
      replaceGo k r p n l = replaceGo k r (lastOr p (l.take n)) 0 (l.drop n) := by
  intro l
  induction l with
  | nil => intro n p; cases n <;> simp [replaceGo]
  | cons c cs ih =>
    intro n p
    cases n with
    | zero => rfl
    | succ n =>
      simp only [replaceGo, List.take_succ_cons, List.drop_succ_cons, lastOr_cons]
      exact ih n (some c)

/-- The step of the scan at a position where the pattern does not match. -/
theorem replaceGo_keep (k r : List Char) (p : Option Char) (c : Char) (cs : List Char)
    (h : regexMatchAt k p (c :: cs) = false) :
    replaceGo k r p 0 (c :: cs) = c :: replaceGo k r (some c) 0 cs := by
  simp [replaceGo, h]

/-- The step of the scan at a position where the pattern matches. -/
theorem replaceGo_match (k r : List Char) (hk : goodKey k = true) (p : Option Char)
    (xs : List Char) (h : regexMatchAt k p xs = true) :
    replaceGo k r p 0 xs =
      r ++ replaceGo k r (lastOr p (xs.take k.length)) 0 (xs.drop k.length) := by
  have hne := goodKey_ne_nil k hk
  obtain ⟨n, hn⟩ : ∃ n, k.length = n + 1 :=
    ⟨k.length - 1, by have := List.length_pos.mpr hne; omega⟩
  cases xs with
  | nil =>
    rw [regexMatchAt_iff k hk] at h
    have := congrArg List.length h.2.1
    simp [hn] at this
  | cons c cs =>
    simp only [replaceGo, h, if_true, hn, Nat.add_sub_cancel, List.take_succ_cons,
      List.drop_succ_cons, lastOr_cons]
    rw [replaceGo_skip]

/-- A match spans as many characters as the pattern has. -/
theorem length_le_of_regexMatchAt (q : List Char) (hq : goodKey q = true) (p : Option Char)
    (xs : List Char) (h : regexMatchAt q p xs = true) : q.length ≤ xs.length := by
  rw [regexMatchAt_iff q hq] at h
  have := congrArg List.length h.2.1
  simp only [List.length_map, List.length_take] at this
  omega

/-- The scan keeps the first character a word character or not. -/
theorem wordBefore_head_replaceGo (k r : List Char) (hk : goodKey k = true)
    (hr : goodKey r = true) (p : Option Char) (xs : List Char) :
    wordBefore (replaceGo k r p 0 xs).head? = wordBefore xs.head? := by
  cases xs with
  | nil => simp [replaceGo]
  | cons c cs =>
    cases hm : regexMatchAt k p (c :: cs) with
    | false => rw [replaceGo_keep k r p c cs hm]; rfl
    | true =>
      rw [replaceGo_match k r hk p _ hm]
      have hrne := goodKey_ne_nil r hr
      have h1 : (r ++ replaceGo k r (lastOr p ((c :: cs).take k.length)) 0
          ((c :: cs).drop k.length)).head? = r.head? := by
        cases r with
        | nil => exact absurd rfl hrne
        | cons a as => rfl
      rw [h1]
      rw [regexMatchAt_iff k hk] at hm
      have h2 := wordBefore_head_of_map_eq _ _ hm.2.1
      have hne := goodKey_ne_nil k hk
      obtain ⟨n, hn⟩ : ∃ n, k.length = n + 1 :=
        ⟨k.length - 1, by have := List.length_pos.mpr hne; omega⟩
      simp only [hn, List.take_succ_cons, List.head?_cons] at h2
      simp only [goodKey, Bool.and_eq_true] at hk hr
      simp only [List.head?_cons]
      rw [h2, hk.1, hr.1]

/-! ## The occurrences a pass can produce -/

/-- A pattern that the scan finds at the head of a replacement text followed by
no word character lies on it. -/
theorem alignOk_of_match (q r tail : List Char)
    (hm : ((r ++ tail).take q.length).map canonicalize = q.map canonicalize)
    (ht : wordBefore tail.head? = false)
    (ha : wordBefore ((r ++ tail).drop q.length).head? = false) :
    alignOk q r = true := by
  simp only [alignOk, Bool.and_eq_true, beq_iff_eq, Bool.or_eq_true, Bool.not_eq_true',
    decide_eq_false_iff_not, Nat.not_lt]
  refine ⟨⟨?_, ?_⟩, ?_⟩
  · have h1 := congrArg (List.take (min q.length r.length)) hm
    rw [← List.map_take, ← List.map_take, List.take_take] at h1
    have h2 : min (min q.length r.length) q.length = min q.length r.length := by omega
    rw [h2, List.take_append_of_le_length (by omega)] at h1
    exact h1.symm
  · by_cases h : r.length < q.length
    · right
      have h1 := congrArg (List.drop r.length) hm
      rw [← List.map_drop, ← List.map_drop] at h1
      have h2 := wordBefore_head_of_map_eq _ _ h1
      rw [← h2]
      have h3 : List.drop r.length (List.take q.length (r ++ tail)) =
          List.take (q.length - r.length) tail := by
        rw [List.drop_take, List.drop_left]
      rw [h3]
      have h4 : (List.take (q.length - r.length) tail).head? = tail.head? := by
        obtain ⟨n, hn⟩ : ∃ n, q.length - r.length = n + 1 := ⟨q.length - r.length - 1, by omega⟩
        rw [hn]
        cases tail <;> simp
      rw [h4, ht]
    · left; omega
  · by_cases h : q.length < r.length
    · right
      have h1 : ((r ++ tail).drop q.length).head? = (r.drop q.length).head? := by
        rw [List.drop_append_of_le_length (by omega)]
        have : r.drop q.length ≠ [] := by
          intro h0
          have := congrArg List.length h0
          simp at this
          omega
        cases hd : r.drop q.length with
        | nil => exact absurd hd this
        | cons a as => rfl
      rw [← h1, ha]
    · left; omega

/-- An occurrence that starts in a replacement text lies within it and is
written as the pass is compatible with. -/
theorem take_eq_of_occurrence_in_replacement (k r q c : List Char) (absent : List (List Char))
    (hq : goodKey q = true) (hc : compatible k r q c absent = true)
    (e : Nat) (he : e < r.length) (tail : List Char) (ht : wordBefore tail.head? = false)
    (p0 : Option Char)
    (hocc : regexMatchAt q (lastOr p0 (r.take e)) (r.drop e ++ tail) = true) :
    (r.drop e ++ tail).take q.length = c := by
  rw [regexMatchAt_iff q hq] at hocc
  obtain ⟨hp, hm, ha⟩ := hocc
  have halign := alignOk_of_match q (r.drop e) tail hm ht ha
  have hbefore : wordBefore (r.take e).getLast? = false := by
    cases e with
    | zero => rfl
    | succ n =>
      have hne : r.take (n + 1) ≠ [] := by
        intro h0
        have := congrArg List.length h0
        rw [List.length_take, List.length_nil] at this
        omega
      rw [lastOr_of_ne_nil _ _ hne] at hp
      exact hp
  have htouch : touchIn q r e = true := by
    simp [touchIn, hbefore, halign]
  simp only [compatible, Bool.and_eq_true, List.all_eq_true, List.mem_range] at hc
  have h2 := hc.2 e he
  simp only [htouch, Bool.not_true, Bool.false_or, Bool.and_eq_true, decide_eq_true_eq,
    beq_iff_eq] at h2
  rw [List.take_append_of_le_length (by simp; omega)]
  exact h2.2

/-- As long as the pattern matches nowhere, the scan copies the text. -/
theorem replaceGo_prefix (k r : List Char) :
    ∀ (d : Nat) (xs : List Char) (prev : Option Char),
      (∀ i, i < d → regexMatchAt k (lastOr prev (xs.take i)) (xs.drop i) = false) →
      replaceGo k r prev 0 xs =
        xs.take d ++ replaceGo k r (lastOr prev (xs.take d)) 0 (xs.drop d) := by
  intro d
  induction d with
  | zero => intro xs prev _; rfl
  | succ d ih =>
    intro xs prev h
    cases xs with
    | nil => simp [replaceGo]
    | cons c cs =>
      have h0 := h 0 (by omega)
      simp only [List.take_zero, lastOr_nil, List.drop_zero] at h0
      rw [replaceGo_keep k r prev c cs h0]
      simp only [List.take_succ_cons, List.drop_succ_cons, lastOr_cons, List.cons_append]
      rw [ih cs (some c) (fun i hi => by
        have := h (i + 1) (by omega)
        simpa only [List.take_succ_cons, List.drop_succ_cons, lastOr_cons] using this)]

/-- An occurrence in the output of a pass that starts at a position the scan
copies: either the scan copies it whole, and it is an occurrence of the input,
or it reaches into a replacement, which a compatible pass excludes. -/
theorem take_eq_of_occurrence_at_kept (k r q c : List Char) (absent : List (List Char))
    (hk : goodKey k = true) (hr : goodKey r = true) (hq : goodKey q = true)
    (hc : compatible k r q c absent = true)
    (xs : List Char) (prev prev' : Option Char) (hw : wordBefore prev' = wordBefore prev)
    (hkeep : regexMatchAt k prev xs = false)
    (hx : regexMatchAt q prev xs = true → xs.take q.length = c)
    (habs : ∀ f ∈ absent, regexMatchAt f prev xs = false)
    (hocc : regexMatchAt q prev' (replaceGo k r prev 0 xs) = true) :
    (replaceGo k r prev 0 xs).take q.length = c := by
  obtain ⟨hp', hm, ha⟩ := (regexMatchAt_iff q hq _ _).mp hocc
  have hp : wordBefore prev = false := by rw [← hw]; exact hp'
  have hqne := goodKey_ne_nil q hq
  have hkne := goodKey_ne_nil k hk
  by_cases hall : ∀ i, i < q.length →
      regexMatchAt k (lastOr prev (xs.take i)) (xs.drop i) = false
  · -- the scan copies the whole window
    have hy := replaceGo_prefix k r q.length xs prev hall
    have hlen : q.length ≤ xs.length := by
      by_contra hlt
      have h1 : xs.drop q.length = [] := List.drop_eq_nil_of_le (by omega)
      have h2 : xs.take q.length = xs := List.take_of_length_le (by omega)
      rw [h1, h2] at hy
      simp only [replaceGo, List.append_nil] at hy
      have h3 := congrArg List.length hm
      rw [hy] at h3
      simp only [List.length_map, List.length_take] at h3
      omega
    have hlt : (xs.take q.length).length = q.length := by
      rw [List.length_take]; omega
    have htake : (replaceGo k r prev 0 xs).take q.length = xs.take q.length := by
      rw [hy, List.take_left' hlt]
    have hdrop : (replaceGo k r prev 0 xs).drop q.length =
        replaceGo k r (lastOr prev (xs.take q.length)) 0 (xs.drop q.length) := by
      rw [hy, List.drop_left' hlt]
    rw [htake] at hm ⊢
    rw [hdrop, wordBefore_head_replaceGo k r hk hr] at ha
    exact hx ((regexMatchAt_iff q hq _ _).mpr ⟨hp, hm, ha⟩)
  · -- the window reaches a replacement
    exfalso
    have hex : ∃ i, i < q.length ∧
        regexMatchAt k (lastOr prev (xs.take i)) (xs.drop i) = true := by
      by_contra hne
      apply hall
      intro i hi
      cases hv : regexMatchAt k (lastOr prev (xs.take i)) (xs.drop i) with
      | false => rfl
      | true => exact absurd ⟨i, hi, hv⟩ hne
    obtain ⟨hdq, hPd⟩ := Nat.find_spec hex
    have hmin : ∀ i, i < Nat.find hex →
        regexMatchAt k (lastOr prev (xs.take i)) (xs.drop i) = false := by
      intro i hi
      cases hv : regexMatchAt k (lastOr prev (xs.take i)) (xs.drop i) with
      | false => rfl
      | true => exact absurd ⟨by omega, hv⟩ (Nat.find_min hex hi)
    generalize Nat.find hex = d at hdq hPd hmin
    have hd0 : d ≠ 0 := by
      intro h0
      subst h0
      simp only [List.take_zero, lastOr_nil, List.drop_zero] at hPd
      rw [hkeep] at hPd
      exact absurd hPd (by decide)
    obtain ⟨hpd, hmk, hak⟩ := (regexMatchAt_iff k hk _ _).mp hPd
    have hklen := length_le_of_regexMatchAt k hk _ _ hPd
    rw [List.length_drop] at hklen
    have hklen0 : 0 < k.length := List.length_pos.mpr hkne
    have hdlen : (xs.take d).length = d := by rw [List.length_take]; omega
    have hy := replaceGo_prefix k r d xs prev hmin
    rw [replaceGo_match k r hk _ _ hPd] at hy
    have ht : wordBefore (replaceGo k r
        (lastOr (lastOr prev (xs.take d)) ((xs.drop d).take k.length)) 0
        ((xs.drop d).drop k.length)).head? = false := by
      rw [wordBefore_head_replaceGo k r hk hr]; exact hak
    -- the first `d` characters of the occurrence
    have hfront : (xs.take d).map canonicalize = (q.take d).map canonicalize := by
      have h1 := congrArg (List.take d) hm
      rw [← List.map_take, ← List.map_take, List.take_take, Nat.min_eq_left (by omega), hy,
        List.take_left' hdlen] at h1
      exact h1
    have hxne : xs.take d ≠ [] := by
      intro h0
      rw [h0] at hdlen
      simp at hdlen
      omega
    have hbefore : wordBefore (q.take d).getLast? = false := by
      rw [← wordBefore_getLast_of_map_eq _ _ hfront, ← lastOr_of_ne_nil prev _ hxne]
      exact hpd
    -- the rest of the occurrence lies on the replacement
    have hrest : ((r ++ replaceGo k r
        (lastOr (lastOr prev (xs.take d)) ((xs.drop d).take k.length)) 0
        ((xs.drop d).drop k.length)).take (q.drop d).length).map canonicalize =
        (q.drop d).map canonicalize := by
      have h1 := congrArg (List.drop d) hm
      rw [← List.map_drop, ← List.map_drop, List.drop_take, hy, List.drop_left' hdlen] at h1
      rw [List.length_drop]
      exact h1
    have hafter : wordBefore ((r ++ replaceGo k r
        (lastOr (lastOr prev (xs.take d)) ((xs.drop d).take k.length)) 0
        ((xs.drop d).drop k.length)).drop (q.drop d).length).head? = false := by
      have h1 : (replaceGo k r prev 0 xs).drop q.length =
          ((replaceGo k r prev 0 xs).drop d).drop (q.length - d) := by
        rw [List.drop_drop]
        congr 1
        omega
      rw [h1, hy, List.drop_left' hdlen] at ha
      rw [List.length_drop]
      exact ha
    have halign := alignOk_of_match (q.drop d) r _ hrest ht hafter
    have htouch : touchAt q r d = true := by
      simp [touchAt, hbefore, halign]
    simp only [compatible, Bool.and_eq_true, List.all_eq_true, List.mem_range] at hc
    have h1 := hc.1 d hdq
    simp only [htouch, Bool.not_true, Bool.false_or, Bool.or_eq_true, beq_iff_eq, hd0,
      false_or] at h1
    have hmem : (q.take d ++ k) ∈ absent := by
      rcases h1 with h1 | h1
      · exact absurd h1 (by decide)
      · exact List.elem_iff.mp h1
    have hno := habs _ hmem
    -- the input holds the forbidden pattern here
    have hgood : goodKey (q.take d ++ k) = true := by
      simp only [goodKey, Bool.and_eq_true] at hq hk ⊢
      have hqd : q.take d ≠ [] := by
        intro h0
        have := congrArg List.length h0
        rw [List.length_take, List.length_nil] at this
        omega
      constructor
      · rw [List.head?_append_of_ne_nil _ hqd]
        obtain ⟨n, hn⟩ : ∃ n, d = n + 1 := ⟨d - 1, by omega⟩
        rw [hn]
        cases q with
        | nil => exact absurd rfl hqne
        | cons a as => simpa using hq.1
      · rw [List.getLast?_append_of_ne_nil _ hkne]
        exact hk.2
    have hflen : (q.take d ++ k).length = d + k.length := by
      rw [List.length_append, List.length_take]; omega
    have hyes : regexMatchAt (q.take d ++ k) prev xs = true := by
      rw [regexMatchAt_iff _ hgood, hflen]
      refine ⟨hp, ?_, ?_⟩
      · rw [List.take_add, List.map_append, List.map_append, hfront, hmk]
      · rw [← List.drop_drop]; exact hak
    rw [hyes] at hno
    exact absurd hno (by decide)

/-- One compatible pass keeps the occurrences of `q` written `c`: where every
occurrence of `q` in the input at which the pattern of the pass does not match
is written `c`, and the input holds none of the patterns `absent`, every
occurrence of `q` in the output is written `c`. -/
theorem writtenAs_replaceGo (k r q c : List Char) (absent : List (List Char))
    (hk : goodKey k = true) (hr : goodKey r = true) (hq : goodKey q = true)
    (hc : compatible k r q c absent = true) :
    ∀ (n : Nat) (xs : List Char) (prev prev' : Option Char), xs.length ≤ n →
      wordBefore prev' = wordBefore prev →
      (∀ pre rest, xs = pre ++ rest → regexMatchAt k (lastOr prev pre) rest = false →
        regexMatchAt q (lastOr prev pre) rest = true → rest.take q.length = c) →
      (∀ f ∈ absent, ∀ pre rest, xs = pre ++ rest →
        regexMatchAt f (lastOr prev pre) rest = false) →
      WrittenAs q c prev' (replaceGo k r prev 0 xs) := by
  have hqne := goodKey_ne_nil q hq
  have hkne := goodKey_ne_nil k hk
  have hrne := goodKey_ne_nil r hr
  have hnil : ∀ p, WrittenAs q c p [] := by
    intro p pre rest hsplit hocc
    have h1 : rest = [] := by
      cases pre with
      | nil => simpa using hsplit.symm
      | cons a as => simp at hsplit
    have h2 := length_le_of_regexMatchAt q hq _ _ hocc
    rw [h1, List.length_nil] at h2
    have h3 := List.length_pos.mpr hqne
    omega
  intro n
  induction n with
  | zero =>
    intro xs prev prev' hlen _ _ _
    have : xs = [] := List.length_eq_zero.mp (by omega)
    subst this
    simp only [replaceGo]
    exact hnil prev'
  | succ n ih =>
    intro xs prev prev' hlen hw hx habs
    cases xs with
    | nil => simp only [replaceGo]; exact hnil prev'
    | cons x0 xt =>
      cases hm : regexMatchAt k prev (x0 :: xt) with
      | false =>
        have heq := replaceGo_keep k r prev x0 xt hm
        intro pre rest hsplit hocc
        cases pre with
        | nil =>
          simp only [List.nil_append] at hsplit
          rw [lastOr_nil] at hocc
          rw [← hsplit] at hocc ⊢
          exact take_eq_of_occurrence_at_kept k r q c absent hk hr hq hc (x0 :: xt) prev prev'
            hw hm (hx [] (x0 :: xt) rfl hm) (fun f hf => habs f hf [] (x0 :: xt) rfl) hocc
        | cons p0 pre' =>
          rw [heq] at hsplit
          simp only [List.cons_append, List.cons.injEq] at hsplit
          obtain ⟨h0, hsplit'⟩ := hsplit
          subst h0
          rw [lastOr_cons] at hocc
          have hlen' : xt.length ≤ n := by simp at hlen; omega
          have := ih xt (some x0) (some x0) hlen' rfl
            (fun pre rest hs h1 h2 => by
              have := hx (x0 :: pre) rest (by rw [hs]; rfl)
              rw [lastOr_cons] at this
              exact this h1 h2)
            (fun f hf pre rest hs => by
              have := habs f hf (x0 :: pre) rest (by rw [hs]; rfl)
              rw [lastOr_cons] at this
              exact this)
          exact this pre' rest hsplit' hocc
      | true =>
        have heq := replaceGo_match k r hk prev _ hm
        obtain ⟨hpk, hmk, hak⟩ := (regexMatchAt_iff k hk _ _).mp hm
        have hklen := length_le_of_regexMatchAt k hk _ _ hm
        have hklen0 : 0 < k.length := List.length_pos.mpr hkne
        have hrlen0 : 0 < r.length := List.length_pos.mpr hrne
        have htail : wordBefore (replaceGo k r (lastOr prev ((x0 :: xt).take k.length)) 0
            ((x0 :: xt).drop k.length)).head? = false := by
          rw [wordBefore_head_replaceGo k r hk hr]; exact hak
        intro pre rest hsplit hocc
        rw [heq] at hsplit
        by_cases hlt : pre.length < r.length
        · -- the occurrence starts in the replacement
          have h1 : pre = r.take pre.length := by
            have := congrArg (List.take pre.length) hsplit
            rw [List.take_left' rfl, List.take_append_of_le_length (by omega)] at this
            exact this.symm
          have h2 : rest = r.drop pre.length ++ replaceGo k r
              (lastOr prev ((x0 :: xt).take k.length)) 0 ((x0 :: xt).drop k.length) := by
            have := congrArg (List.drop pre.length) hsplit
            rw [List.drop_left' rfl, List.drop_append_of_le_length (by omega)] at this
            exact this.symm
          rw [h2]
          apply take_eq_of_occurrence_in_replacement k r q c absent hq hc pre.length hlt _
            htail prev'
          rw [← h1, ← h2]
          exact hocc
        · -- the occurrence starts after the replacement
          have hle : r.length ≤ pre.length := by omega
          have h1 : pre = r ++ pre.drop r.length := by
            have := congrArg (List.take r.length) hsplit
            rw [List.take_left' rfl, List.take_append_of_le_length hle] at this
            conv_lhs => rw [← List.take_append_drop r.length pre]
            rw [← this]
          have h2 : replaceGo k r (lastOr prev ((x0 :: xt).take k.length)) 0
              ((x0 :: xt).drop k.length) = pre.drop r.length ++ rest := by
            have := congrArg (List.drop r.length) hsplit
            rw [List.drop_left' rfl, List.drop_append_of_le_length hle] at this
            exact this
          have hxlen : ((x0 :: xt).drop k.length).length ≤ n := by
            rw [List.length_drop]; omega
          have htake_ne : (x0 :: xt).take k.length ≠ [] := by
            intro h0
            have := congrArg List.length h0
            rw [List.length_take, List.length_nil] at this
            omega
          have hwm : wordBefore (lastOr prev ((x0 :: xt).take k.length)) = true := by
            rw [lastOr_of_ne_nil _ _ htake_ne, wordBefore_getLast_of_map_eq _ _ hmk]
            simp only [goodKey, Bool.and_eq_true] at hk
            exact hk.2
          have hwr : wordBefore r.getLast? = true := by
            simp only [goodKey, Bool.and_eq_true] at hr
            exact hr.2
          have := ih ((x0 :: xt).drop k.length) (lastOr prev ((x0 :: xt).take k.length))
            r.getLast? hxlen (by rw [hwm, hwr])
            (fun pre rest hs h1 h2 => by
              have := hx ((x0 :: xt).take k.length ++ pre) rest
                (by rw [List.append_assoc, ← hs, List.take_append_drop])
              rw [lastOr_append] at this
              exact this h1 h2)
            (fun f hf pre rest hs => by
              have := habs f hf ((x0 :: xt).take k.length ++ pre) rest
                (by rw [List.append_assoc, ← hs, List.take_append_drop])
              rw [lastOr_append] at this
              exact this)
          apply this (pre.drop r.length) rest h2
          rw [h1, lastOr_append, lastOr_of_ne_nil _ _ hrne] at hocc
          exact hocc

theorem lastOr_none (pre : List Char) : lastOr none pre = pre.getLast? := by
  unfold lastOr
  cases pre.getLast? <;> rfl

/-- A pass whose replacement equals its key ignoring case changes the case of
characters only. -/
theorem map_canonicalize_replaceGo (k r : List Char) (hk : goodKey k = true)
    (hkr : r.map canonicalize = k.map canonicalize) :
    ∀ (n : Nat) (xs : List Char) (prev : Option Char), xs.length ≤ n →
      (replaceGo k r prev 0 xs).map canonicalize = xs.map canonicalize := by
  have hkne := goodKey_ne_nil k hk
  intro n
  induction n with
  | zero =>
    intro xs prev hlen
    have : xs = [] := List.length_eq_zero.mp (by omega)
    subst this
    simp [replaceGo]
  | succ n ih =>
    intro xs prev hlen
    cases xs with
    | nil => simp [replaceGo]
    | cons x0 xt =>
      cases hm : regexMatchAt k prev (x0 :: xt) with
      | false =>
        rw [replaceGo_keep k r prev x0 xt hm, List.map_cons, List.map_cons,
          ih xt (some x0) (by simp at hlen; omega)]
      | true =>
        rw [replaceGo_match k r hk prev _ hm, List.map_append]
        obtain ⟨_, hmk, _⟩ := (regexMatchAt_iff k hk _ _).mp hm
        have hklen0 : 0 < k.length := List.length_pos.mpr hkne
        rw [ih _ _ (by rw [List.length_drop]; omega), hkr, ← hmk, ← List.map_append,
          List.take_append_drop]

/-- The occurrences of a pattern are the same in two texts that are equal
ignoring case. -/
theorem regexMatchAt_of_map_eq (q : List Char) (hq : goodKey q = true) (x y : List Char)
    (hxy : y.map canonicalize = x.map canonicalize) (pre rest : List Char)
    (hsplit : y = pre ++ rest) (hocc : regexMatchAt q (lastOr none pre) rest = true) :
    regexMatchAt q (lastOr none (x.take pre.length)) (x.drop pre.length) = true := by
  have hpre : (x.take pre.length).map canonicalize = pre.map canonicalize := by
    rw [List.map_take, ← hxy, hsplit, ← List.map_take, List.take_left' rfl]
  have hrest : (x.drop pre.length).map canonicalize = rest.map canonicalize := by
    rw [List.map_drop, ← hxy, hsplit, ← List.map_drop, List.drop_left' rfl]
  rw [regexMatchAt_iff q hq] at hocc ⊢
  obtain ⟨hp, hm, ha⟩ := hocc
  rw [lastOr_none] at hp ⊢
  refine ⟨?_, ?_, ?_⟩
  · rw [wordBefore_getLast_of_map_eq _ _ hpre]; exact hp
  · rw [List.map_take, hrest, ← List.map_take]; exact hm
  · have : ((x.drop pre.length).drop q.length).map canonicalize =
        (rest.drop q.length).map canonicalize := by
      rw [List.map_drop, hrest, ← List.map_drop]
    rw [wordBefore_head_of_map_eq _ _ this]; exact ha

/-- A pattern that cannot be written `c`, for want of the right length, and
that occurs nowhere in a text occurs nowhere in a text equal to it ignoring
case. -/
theorem writtenAs_of_map_eq (q c : List Char) (hq : goodKey q = true)
    (hlen : q.length ≠ c.length) (x y : List Char)
    (hxy : y.map canonicalize = x.map canonicalize) (hx : WrittenAs q c none x) :
    WrittenAs q c none y := by
  intro pre rest hsplit hocc
  exfalso
  have h1 := regexMatchAt_of_map_eq q hq x y hxy pre rest hsplit hocc
  have h2 := hx (x.take pre.length) (x.drop pre.length) (List.take_append_drop _ _).symm h1
  have h3 := length_le_of_regexMatchAt q hq _ _ h1
  have h4 := congrArg List.length h2
  rw [List.length_take] at h4
  omega

/-- A pattern that is written as a text of another length occurs nowhere. -/
theorem regexMatchAt_eq_false_of_writtenAs (f c : List Char) (hf : goodKey f = true)
    (hlen : f.length ≠ c.length) (prev : Option Char) (x : List Char)
    (hx : WrittenAs f c prev x) (pre rest : List Char) (hsplit : x = pre ++ rest) :
    regexMatchAt f (lastOr prev pre) rest = false := by
  cases hv : regexMatchAt f (lastOr prev pre) rest with
  | false => rfl
  | true =>
    exfalso
    have h2 := hx pre rest hsplit hv
    have h3 := length_le_of_regexMatchAt f hf _ _ hv
    have h4 := congrArg List.length h2
    rw [List.length_take] at h4
    omega

/-- One pass of the loop on a whole text keeps a compatible pattern as it is
written. -/
theorem writtenAs_replaceAll (e : String × String) (q c : List Char)
    (absent : List (List Char)) (hk : goodKey e.1.data = true) (hr : goodKey e.2.data = true)
    (hq : goodKey q = true) (hok : passOk absent e (q, c) = true) (x : List Char)
    (hx : WrittenAs q c none x)
    (habs : ∀ f ∈ absent, goodKey f = true ∧ WrittenAs f [] none x) :
    WrittenAs q c none (replaceAll e.1 e.2 x) := by
  simp only [passOk, Bool.or_eq_true, Bool.and_eq_true, bne_iff_ne, ne_eq] at hok
  rcases hok with hc | ⟨hco, hlen⟩
  · exact writtenAs_replaceGo e.1.data e.2.data q c absent hk hr hq hc x.length x none none
      (Nat.le_refl _) rfl (fun pre rest hs _ h2 => hx pre rest hs h2)
      (fun f hf pre rest hs =>
        regexMatchAt_eq_false_of_writtenAs f [] (habs f hf).1
          (by
            have := List.length_pos.mpr (goodKey_ne_nil f (habs f hf).1)
            simp only [List.length_nil]
            omega)
          none x (habs f hf).2 pre rest hs)
  · have hco' : e.2.data.map canonicalize = e.1.data.map canonicalize := by
      simpa [caseOnly] using hco
    exact writtenAs_of_map_eq q c hq hlen x _
      (map_canonicalize_replaceGo e.1.data e.2.data hk hco' x.length x none (Nat.le_refl _)) hx

/-- One pass of the loop writes every occurrence of its key as its
replacement. -/
theorem writtenAs_replaceAll_self (e : String × String)
    (hk : goodKey e.1.data = true) (hr : goodKey e.2.data = true)
    (hc : compatible e.1.data e.2.data e.1.data e.2.data [] = true) (x : List Char) :
    WrittenAs e.1.data e.2.data none (replaceAll e.1 e.2 x) :=
  writtenAs_replaceGo e.1.data e.2.data e.1.data e.2.data [] hk hr hk hc x.length x none none
    (Nat.le_refl _) rfl
    (fun _ _ _ h1 h2 => by rw [h1] at h2; exact absurd h2 (by decide))
    (fun f hf => by simp at hf)

/-- The loop over a checked table leaves every settled pattern and every key of
the table written as listed. -/
theorem writtenAs_correctWith (absent : List (List Char)) :
    ∀ (todo : List (String × String)) (settled : List (List Char × List Char))
      (x : List Char),
      tableOk absent todo settled = true →
      (∀ a ∈ absent, (a, []) ∈ settled) →
      (∀ p ∈ settled, goodKey p.1 = true ∧ WrittenAs p.1 p.2 none x) →
      (∀ p ∈ settled, WrittenAs p.1 p.2 none (correctWith todo x)) ∧
      (∀ e ∈ todo, WrittenAs e.1.data e.2.data none (correctWith todo x)) := by
  intro todo
  induction todo with
  | nil =>
    intro settled x _ _ hs
    exact ⟨fun p hp => (hs p hp).2, fun e he => by simp at he⟩
  | cons e rest ih =>
    intro settled x hok hab hs
    simp only [tableOk, Bool.and_eq_true, List.all_eq_true] at hok
    obtain ⟨⟨⟨⟨hk, hr⟩, hpass⟩, hself⟩, hrest⟩ := hok
    have habs : ∀ f ∈ absent, goodKey f = true ∧ WrittenAs f [] none x :=
      fun f hf => hs (f, []) (hab f hf)
    have hnext := ih ((e.1.data, e.2.data) :: settled) (replaceAll e.1 e.2 x) hrest
      (fun a ha => List.mem_cons_of_mem _ (hab a ha))
      (fun p hp => by
        rcases List.mem_cons.mp hp with h | h
        · subst h
          exact ⟨hk, writtenAs_replaceAll_self e hk hr hself x⟩
        · exact ⟨(hs p h).1,
            writtenAs_replaceAll e p.1 p.2 absent hk hr (hs p h).1 (hpass p h) x (hs p h).2
              habs⟩)
    have hstep : correctWith (e :: rest) x = correctWith rest (replaceAll e.1 e.2 x) := rfl
    rw [hstep]
    refine ⟨fun p hp => hnext.1 p (List.mem_cons_of_mem _ hp), ?_⟩
    intro e' he'
    rcases List.mem_cons.mp he' with h | h
    · subst h
      exact hnext.1 (e'.1.data, e'.2.data) (List.mem_cons_self _ _)
    · exact hnext.2 e' h

/-- A pattern that occurs nowhere as a whole word is written as anything. -/
theorem writtenAs_of_not_occurs (q c : List Char) (hq : q ≠ []) (x : List Char)
    (h : occursWholeWord q x = false) : WrittenAs q c none x := by
  intro pre rest hsplit hocc
  exfalso
  rw [lastOr_none, regexMatchAt_eq_occursAt q pre rest hq, ← hsplit] at hocc
  simp only [occursWholeWord, List.any_eq_false, List.mem_range] at h
  have := h pre.length (by rw [hsplit, List.length_append]; omega)
  rw [hocc] at this
  exact this rfl

/-- A pattern written `c` at all its occurrences passes the test on the
positions of the text. -/
theorem spelledAs_of_writtenAs (q c : List Char) (hq : q ≠ []) (x : List Char)
    (h : WrittenAs q c none x) : spelledAs q c x = true := by
  simp only [spelledAs, List.all_eq_true, List.mem_range, Bool.or_eq_true, Bool.not_eq_true',
    beq_iff_eq]
  intro i hi
  cases hv : occursAt q x i with
  | false => exact Or.inl rfl
  | true =>
    right
    have hlen : (x.take i).length = i := by rw [List.length_take]; omega
    have h1 := regexMatchAt_eq_occursAt q (x.take i) (x.drop i) hq
    rw [List.take_append_drop, hlen, hv, ← lastOr_none] at h1
    exact h (x.take i) (x.drop i) (List.take_append_drop _ _).symm h1

/-- The table of the loop passes the check, given that the text holds no
occurrence of "fast a p i". -/
theorem corrections_tableOk :
    tableOk ["fast a p i".data] corrections [("fast a p i".data, [])] = true := by
  decide!

/-! ## Keys standing alone, in any case -/

/-- The pass of a key rewrites the key standing alone, in any case, to the
replacement. -/
theorem replaceAll_of_equalIgnoringCase (e : String × String) (hk : goodKey e.1.data = true)
    (t : List Char) (ht : equalIgnoringCase t e.1.data = true) :
    replaceAll e.1 e.2 t = e.2.data := by
  rw [equalIgnoringCase_iff] at ht
  have hlen : t.length = e.1.data.length := by
    have := congrArg List.length ht
    simpa using this
  have htake : t.take e.1.data.length = t := List.take_of_length_le (by omega)
  have hdrop : t.drop e.1.data.length = [] := List.drop_eq_nil_of_le (by omega)
  have hm : regexMatchAt e.1.data none t = true := by
    rw [regexMatchAt_iff _ hk, htake, hdrop]
    exact ⟨rfl, ht, rfl⟩
  unfold replaceAll
  rw [replaceGo_match _ _ hk none t hm, hdrop]
  simp [replaceGo]

/-- A pattern that occurs nowhere in a text is written as anything in every
text equal to it ignoring case. -/
theorem writtenAs_of_equalIgnoringCase (q c : List Char) (hq : goodKey q = true)
    (x t : List Char) (ht : equalIgnoringCase t x = true)
    (h : occursWholeWord q x = false) : WrittenAs q c none t := by
  have hne := goodKey_ne_nil q hq
  have h1 : WrittenAs q [] none x := writtenAs_of_not_occurs q [] hne x h
  have hlen : q.length ≠ ([] : List Char).length := by
    have := List.length_pos.mpr hne
    simp only [List.length_nil]
    omega
  have h2 := writtenAs_of_map_eq q [] hq hlen x t ((equalIgnoringCase_iff _ _).mp ht) h1
  intro pre rest hsplit hocc
  have := regexMatchAt_eq_false_of_writtenAs q [] hq hlen none t h2 pre rest hsplit
  rw [hocc] at this
  exact absurd this (by decide)

/-- In a checked table every key but the excepted one, standing alone and in
any case, is rewritten to its listed spelling. -/
theorem correctWith_of_equalIgnoringCase (except : String) :
    ∀ (todo before : List (String × String)),
      standAloneOk except before todo = true →
      (∀ b ∈ before, goodKey b.1.data = true) →
      ∀ e ∈ todo, e.1 ≠ except → ∀ t : List Char, equalIgnoringCase t e.1.data = true →
        correctWith (before ++ todo) t = e.2.data := by
  intro todo
  induction todo with
  | nil => intro before _ _ e he; simp at he
  | cons e0 rest ih =>
    intro before hok hb e he hne t ht
    simp only [standAloneOk, Bool.and_eq_true, Bool.or_eq_true, beq_iff_eq,
      List.all_eq_true, Bool.not_eq_true'] at hok
    obtain ⟨⟨hk, hcase⟩, hrest⟩ := hok
    rcases List.mem_cons.mp he with h | h
    · subst h
      rcases hcase with h1 | ⟨hbefore, hafter⟩
      · exact absurd h1 hne
      · have h2 : correctWith before t = t :=
          correctWith_eq_self before t (fun b hb' => goodKey_ne_nil _ (hb b hb'))
            (fun b hb' => spelledAs_of_writtenAs _ _ (goodKey_ne_nil _ (hb b hb')) _
              (writtenAs_of_equalIgnoringCase _ _ (hb b hb') _ t ht (hbefore b hb')))
        have h3 : correctWith (before ++ e :: rest) t =
            correctWith rest (replaceAll e.1 e.2 (correctWith before t)) := by
          simp [correctWith, List.foldl_append]
        rw [h3, h2, replaceAll_of_equalIgnoringCase e hk t ht]
        exact hafter
    · have := ih (before ++ [e0]) hrest
        (fun b hb' => by
          rcases List.mem_append.mp hb' with h' | h'
          · exact hb b h'
          · simp at h'; subst h'; exact hk)
        e h hne t ht
      rw [List.append_assoc] at this
      exact this

/-- The table of the loop passes the check of its keys standing alone, the
key "gpt 4 oh" excepted. -/
theorem corrections_standAloneOk : standAloneOk "gpt 4 oh" [] corrections = true := by
  decide!

/-! ## Vocabulary correction -/

theorem correctTechnicalTerms_data (t : String) :
    (correctTechnicalTerms t).data = correctWith corrections t.data := by
  simp only [correctTechnicalTerms, correctChars]


/-- C1, as stated, fails: correcting "fast a p i" gives "fast API" (the entry
"fast api" is tried before "a p i" produces "API"), and correcting that once
more gives "FastAPI". -/
theorem correctTechnicalTerms_not_idempotent :
    correctTechnicalTerms "fast a p i" = "fast API" ∧
    correctTechnicalTerms (correctTechnicalTerms "fast a p i") = "FastAPI" ∧
    correctTechnicalTerms (correctTechnicalTerms "fast a p i") ≠
      correctTechnicalTerms "fast a p i" := by
  decide

/-- C1 (amended): vocabulary correction is idempotent on every text that holds no
whole-word, case-insensitive occurrence of "fast a p i": for every such text t,
correctTechnicalTerms(correctTechnicalTerms(t)) = correctTechnicalTerms(t). -/
theorem correctTechnicalTerms_idempotent_without_fast_a_p_i (t : String)
    (h : occursWholeWord "fast a p i".data t.data = false) :
    correctTechnicalTerms (correctTechnicalTerms t) = correctTechnicalTerms t := by
  have h0 : WrittenAs "fast a p i".data [] none t.data :=
    writtenAs_of_not_occurs _ _ (by decide) _ h
  have hw := (writtenAs_correctWith ["fast a p i".data] corrections
    [("fast a p i".data, [])] t.data corrections_tableOk
    (fun a ha => by
      have : a = "fast a p i".data := by simpa using ha
      subst this
      exact List.mem_cons_self _ _)
    (fun p hp => by
      have : p = ("fast a p i".data, []) := by simpa using hp
      subst this
      exact ⟨by decide, h0⟩)).2
  apply String.ext
  rw [correctTechnicalTerms_data, correctTechnicalTerms_data]
  exact correctWith_eq_self corrections _ corrections_keys_ne_nil
    (fun e he => spelledAs_of_writtenAs _ _ (corrections_keys_ne_nil e he) _ (hw e he))

/-- C1 (amended), at the text "the a p i uses fast api, r a g and gpt 4", which
holds "a p i" but not "fast a p i". -/
theorem correctTechnicalTerms_idempotent_without_fast_a_p_i_witness :
    occursWholeWord "fast a p i".data "the a p i uses fast api, r a g and gpt 4".data = false ∧
    correctTechnicalTerms "the a p i uses fast api, r a g and gpt 4" =
      "the API uses FastAPI, RAG and GPT-4" ∧
    correctTechnicalTerms
        (correctTechnicalTerms "the a p i uses fast api, r a g and gpt 4") =
      correctTechnicalTerms "the a p i uses fast api, r a g and gpt 4" :=
  ⟨by decide, by decide,
    correctTechnicalTerms_idempotent_without_fast_a_p_i
      "the a p i uses fast api, r a g and gpt 4" (by decide)⟩

/-- C2, on the code: the loop visits the key "gpt 4" (position 13) before the
key "gpt 4 oh" (position 15) of which it is a proper substring, and this is the
only pair of keys of the table visited in ascending specificity order. -/
theorem corrections_order_shadowed :
    (13, "gpt 4") ∈ keyOrder ∧ (15, "gpt 4 oh") ∈ keyOrder ∧
    isSubstring "gpt 4".data "gpt 4 oh".data = true ∧
    shadowedPairs = [("gpt 4", "gpt 4 oh")] := by
  decide!

/-- C3, on the code: the misrecognition "gpt 4 oh" is not mapped to its listed
spelling "GPT-4o" but to "GPT-4 oh", and it is the only entry of the table whose
key is not mapped to its listed spelling. -/
theorem correctTechnicalTerms_entries :
    ("gpt 4 oh", "GPT-4o") ∈ corrections ∧
    correctTechnicalTerms "gpt 4 oh" = "GPT-4 oh" ∧
    corrections.filter (fun e => correctTechnicalTerms e.1 != e.2) =
      [("gpt 4 oh", "GPT-4o")] := by
  decide

/-- C4: vocabulary correction is case-insensitive and whole-word only: a text in
which no key of the table occurs as a whole word, ignoring case, is returned
unchanged; every key of the table but the shadowed "gpt 4 oh", standing alone
and written in any case, is rewritten to its listed spelling; "chainsaw",
"CHAINSAW" and "the storage api_key", where "rag" and "api" are not whole
words, are returned unchanged; and "I used langchain for this" and "I used
LANGCHAIN for this" both become "I used LangChain for this". -/
theorem correctTechnicalTerms_whole_word :
    (∀ t : String, (∀ e ∈ corrections, occursWholeWord e.1.data t.data = false) →
      correctTechnicalTerms t = t) ∧
    (∀ e ∈ corrections, e.1 ≠ "gpt 4 oh" →
      ∀ t : String, equalIgnoringCase t.data e.1.data = true →
        correctTechnicalTerms t = e.2) ∧
    correctTechnicalTerms "chainsaw" = "chainsaw" ∧
    correctTechnicalTerms "CHAINSAW" = "CHAINSAW" ∧
    correctTechnicalTerms "I used langchain for this" = "I used LangChain for this" ∧
    correctTechnicalTerms "I used LANGCHAIN for this" = "I used LangChain for this" ∧
    correctTechnicalTerms "Lang Chain, Chroma DB and an Api" =
      "LangChain, ChromaDB and an API" ∧
    correctTechnicalTerms "the storage api_key" = "the storage api_key" := by
  refine ⟨?_, ?_, by decide, by decide, by decide, by decide, by decide, by decide⟩
  · intro t h
    show (⟨correctWith corrections t.data⟩ : String) = t
    rw [correctWith_eq_self corrections _ corrections_keys_ne_nil
      (fun e he => spelledAs_of_not_occurs _ _ _ (h e he))]
  · intro e he hne t ht
    have := correctWith_of_equalIgnoringCase "gpt 4 oh" corrections []
      corrections_standAloneOk (fun b hb => by simp at hb) e he hne t.data ht
    rw [List.nil_append] at this
    apply String.ext
    rw [correctTechnicalTerms_data, this]

/-- C4, at the text "chainsaw", in which no key of the table occurs as a whole
word, and at the key "lang chain" written "LANG Chain". -/
theorem correctTechnicalTerms_whole_word_witness :
    (∀ e ∈ corrections, occursWholeWord e.1.data "chainsaw".data = false) ∧
    correctTechnicalTerms "chainsaw" = "chainsaw" ∧
    equalIgnoringCase "LANG Chain".data "lang chain".data = true ∧
    correctTechnicalTerms "LANG Chain" = "LangChain" :=
  ⟨by decide, correctTechnicalTerms_whole_word.1 "chainsaw" (by decide), by decide,
   correctTechnicalTerms_whole_word.2.1 ("lang chain", "LangChain") (by decide) (by decide)
     "LANG Chain" (by decide)⟩

/-! ## Result delivery -/

/-- The body of the loop of `recognition.onresult` on one result. -/
theorem onresultStep_of_getElem (results : List SpeechRecognitionResult)
    (acc : String × String) (i : Nat) (r : SpeechRecognitionResult)
    (h : results[i]? = some r) :
    onresultStep results acc i =
      if r.isFinal then (acc.1 ++ (correctTechnicalTerms r.transcript ++ " "), acc.2)
      else (acc.1, acc.2 ++ r.transcript) := by
  simp [onresultStep, h]

/-- The loop over the indices from `n` on is a loop over the results from
index `n` on. -/
theorem foldl_onresultStep_range (results : List SpeechRecognitionResult) :
    ∀ (k n : Nat) (acc : String × String), k = results.length - n →
      (List.range' n k).foldl (onresultStep results) acc =
        (results.drop n).foldl
          (fun acc r =>
            if r.isFinal then (acc.1 ++ (correctTechnicalTerms r.transcript ++ " "), acc.2)
            else (acc.1, acc.2 ++ r.transcript)) acc := by
  intro k
  induction k with
  | zero =>
    intro n acc h
    have : results.drop n = [] := List.drop_eq_nil_of_le (by omega)
    simp [this]
  | succ k ih =>
    intro n acc h
    have hn : n < results.length := by omega
    have hd : results.drop n = results[n] :: results.drop (n + 1) :=
      List.drop_eq_getElem_cons hn
    have hg : results[n]? = some results[n] := List.getElem?_eq_getElem hn
    rw [hd]
    simp only [List.range', List.foldl_cons]
    rw [onresultStep_of_getElem results acc n _ hg]
    exact ih (n + 1) _ (by omega)

/-- The loop over a list of results appends the corrected final results, each
followed by one space, to the first local and the raw interim results to the
second. -/
theorem foldl_results (rs : List SpeechRecognitionResult) :
    ∀ acc : String × String,
      rs.foldl
          (fun acc r =>
            if r.isFinal then (acc.1 ++ (correctTechnicalTerms r.transcript ++ " "), acc.2)
            else (acc.1, acc.2 ++ r.transcript)) acc =
        (acc.1 ++ concatAll ((rs.filter (fun r => r.isFinal)).map
            (fun r => correctTechnicalTerms r.transcript ++ " ")),
         acc.2 ++ concatAll ((rs.filter (fun r => !r.isFinal)).map (fun r => r.transcript))) := by
  induction rs with
  | nil => intro acc; simp [concatAll]
  | cons r rs ih =>
    intro acc
    simp only [List.foldl_cons]
    rw [ih]
    cases hr : r.isFinal <;> simp [hr, concatAll, String.append_assoc]

/-- The two locals of `recognition.onresult` after its loop. -/
theorem onresultLoop_eq (event : SpeechRecognitionEvent) :
    onresultLoop event = (finalizedTextOf event, interimTextOf event) := by
  unfold onresultLoop
  rw [foldl_onresultStep_range event.results _ _ _ rfl, foldl_results]
  simp [finalizedTextOf, interimTextOf]

/-- The finalized transcript after one result event. -/
theorem onresult_transcript (s : SpeechState) (event : SpeechRecognitionEvent) :
    (onresult s event).transcript = s.transcript ++ finalizedTextOf event := by
  simp only [onresult, onresultLoop_eq]
  split
  · rfl
  · rename_i h
    have : finalizedTextOf event = "" := by simpa using h
    simp [this]

/-- The interim transcript after one result event. -/
theorem onresult_interim (s : SpeechState) (event : SpeechRecognitionEvent) :
    (onresult s event).interimTranscript = interimTextOf event := by
  simp only [onresult, onresultLoop_eq]

/-- C5: for every sequence of recognition result events, the finalized
transcript after the sequence is the transcript before it followed by, for
each event in order and each final result of that event at index resultIndex
or above in order, the corrected first-alternative transcript followed by
exactly one space; other results contribute nothing. -/
theorem onresult_finalized_sequence (events : List SpeechRecognitionEvent) (s : SpeechState) :
    (events.foldl onresult s).transcript =
      s.transcript ++ concatAll (events.map finalizedTextOf) := by
  induction events generalizing s with
  | nil => simp [concatAll]
  | cons e es ih =>
    simp only [List.foldl_cons, List.map_cons]
    rw [ih, onresult_transcript]
    simp [concatAll, String.append_assoc]

/-- C6, as stated, fails: an event whose resultIndex is 1 and which carries the
two non-final results "hello " and "world" leaves interimTranscript at
"world", not at the concatenation "hello world" of its non-final results. -/
theorem onresult_interim_skips_below_resultIndex :
    (onresult
      { transcript := "", interimTranscript := "hello wor", isRecording := true,
        error := none, recognitionRef := true }
      { resultIndex := 1,
        results := [{ isFinal := false, transcript := "hello " },
                    { isFinal := false, transcript := "world" }] }).interimTranscript
      = "world" ∧
    allInterimTextOf
      { resultIndex := 1,
        results := [{ isFinal := false, transcript := "hello " },
                    { isFinal := false, transcript := "world" }] } = "hello world" := by
  decide

/-- C6 (amended): after every recognition result event, interimTranscript is
exactly the in-order concatenation of the raw first-alternative transcripts of
the non-final results of that one event at index resultIndex or above, whatever
its previous value; so it is empty when those results are all final, and after
any sequence of events it is the interim text of the last event only. -/
theorem onresult_interim_replaced (events : List SpeechRecognitionEvent)
    (event : SpeechRecognitionEvent) (s : SpeechState) :
    (onresult s event).interimTranscript = interimTextOf event ∧
    ((∀ r ∈ event.results.drop event.resultIndex, r.isFinal = true) →
      (onresult s event).interimTranscript = "") ∧
    ((events ++ [event]).foldl onresult s).interimTranscript = interimTextOf event := by
  refine ⟨onresult_interim s event, ?_, ?_⟩
  · intro h
    rw [onresult_interim]
    have : (event.results.drop event.resultIndex).filter (fun r => !r.isFinal) = [] := by
      rw [List.filter_eq_nil_iff]
      intro r hr
      simp [h r hr]
    simp [interimTextOf, this, concatAll]
  · rw [List.foldl_append]
    exact onresult_interim _ event

/-- C6 (amended), at an event that finalizes "hello world" after an earlier
interim hypothesis: the interim transcript is empty afterwards. -/
theorem onresult_interim_replaced_witness :
    (∀ r ∈ ([{ isFinal := true, transcript := "hello world" }] :
        List SpeechRecognitionResult).drop 0, r.isFinal = true) ∧
    (onresult
      { transcript := "", interimTranscript := "hello wor", isRecording := true,
        error := none, recognitionRef := true }
      { resultIndex := 0,
        results := [{ isFinal := true, transcript := "hello world" }] }).interimTranscript
      = "" :=
  ⟨by decide,
   (onresult_interim_replaced []
      { resultIndex := 0, results := [{ isFinal := true, transcript := "hello world" }] }
      { transcript := "", interimTranscript := "hello wor", isRecording := true,
        error := none, recognitionRef := true }).2.1 (by decide)⟩

/-! ## The session controller: `submitAnswer` and `approveAssessment` -/

/-- Trimming leaves nothing exactly when every character is white space. -/
theorem trim_data_eq_nil_iff (t : String) :
    (trim t).data = [] ↔ ∀ c ∈ t.data, isJsWhiteSpace c = true := by
  simp only [trim, List.reverse_eq_nil_iff, List.dropWhile_eq_nil_iff, List.mem_reverse]
  constructor
  · intro h
    by_contra hne
    have hd : t.data.dropWhile isJsWhiteSpace ≠ [] := by
      intro hnil
      exact hne (List.dropWhile_eq_nil_iff.mp hnil)
    have hhead := List.head_dropWhile_not isJsWhiteSpace t.data hd
    have := h _ (List.head_mem hd)
    simp [this] at hhead
  · intro h c hc
    have : t.data.dropWhile isJsWhiteSpace = [] := List.dropWhile_eq_nil_iff.mpr h
    simp [this] at hc

/-- The guard `!transcript?.trim()` holds exactly for a missing, empty or
white-space-only answer. -/
theorem isBlankAnswer_eq_whitespaceOnly (transcript : Option String) :
    isBlankAnswer transcript = whitespaceOnly transcript := by
  cases transcript with
  | none => rfl
  | some t =>
    simp only [isBlankAnswer, whitespaceOnly]
    rw [Bool.eq_iff_iff]
    simp only [beq_iff_eq, List.all_eq_true]
    rw [← trim_data_eq_nil_iff]
    constructor
    · intro h; rw [h]
    · intro h; exact String.ext h

/-- The message `err.message || fallback` is not empty when the fallback is
not. -/
theorem messageOr_ne_empty (err : ApiError) (fallback : String) (h : fallback ≠ "") :
    messageOr err fallback ≠ "" := by
  unfold messageOr
  split
  · exact h
  · split
    · exact h
    · assumption

/-- C7: submitAnswer validates locally before contacting the remote service:
when there is no session with a thread_id, or the answer text is empty or only
white space, it issues no remote call, returns null, leaves status, session,
currentQuestion, assessment and isLoading unchanged, and sets error to the
no-active-session message (when the session is missing, which takes
precedence) or to the empty-answer message. -/
theorem submitAnswer_local_validation (remote : Remote) (s : InterviewState)
    (transcript : Option String)
    (h : threadIdOf s.session = none ∨ whitespaceOnly transcript = true) :
    (submitAnswer remote s transcript).calls = [] ∧
    (submitAnswer remote s transcript).result = none ∧
    (submitAnswer remote s transcript).state.status = s.status ∧
    (submitAnswer remote s transcript).state.session = s.session ∧
    (submitAnswer remote s transcript).state.currentQuestion = s.currentQuestion ∧
    (submitAnswer remote s transcript).state.assessment = s.assessment ∧
    (submitAnswer remote s transcript).state.isLoading = s.isLoading ∧
    (submitAnswer remote s transcript).state.error =
      some (if threadIdOf s.session = none
            then "No active session. Please start a new interview."
            else "Please provide an answer before submitting.") := by
  cases hs : threadIdOf s.session with
  | none => simp [submitAnswer, hs]
  | some tid =>
    have hb : isBlankAnswer transcript = true := by
      rw [isBlankAnswer_eq_whitespaceOnly]
      rcases h with h | h
      · rw [hs] at h; cases h
      · exact h
    simp [submitAnswer, hs, hb]

/-- C7, at a controller with a session and the answer of three blanks. -/
theorem submitAnswer_local_validation_witness :
    (threadIdOf (sampleState 1).session = none ∨ whitespaceOnly (some "   ") = true) ∧
    (submitAnswer (failingRemote none) (sampleState 1) (some "   ")).calls = [] ∧
    (submitAnswer (failingRemote none) (sampleState 1) (some "   ")).state.status
      = .questioning ∧
    (submitAnswer (failingRemote none) (sampleState 1) (some "   ")).state.error
      = some "Please provide an answer before submitting." :=
  have h := submitAnswer_local_validation (failingRemote none) (sampleState 1) (some "   ")
    (Or.inr (by decide))
  ⟨Or.inr (by decide), h.1, h.2.2.1, h.2.2.2.2.2.2.2.trans (by decide)⟩

/-- C8: when submitAnswer is called with an existing session and a non-blank
answer and the remote submission fails, then afterwards status is questioning,
error is a non-empty message, currentQuestion and session are unchanged,
isLoading is false, and the operation returns null. -/
theorem submitAnswer_remote_failure (remote : Remote) (s : InterviewState) (t tid : String)
    (err : ApiError) (hs : threadIdOf s.session = some tid)
    (ht : whitespaceOnly (some t) = false)
    (hf : remote.submitAnswer tid t = .error err) :
    (submitAnswer remote s (some t)).state.status = .questioning ∧
    (∃ m, (submitAnswer remote s (some t)).state.error = some m ∧ m ≠ "") ∧
    (submitAnswer remote s (some t)).state.currentQuestion = s.currentQuestion ∧
    (submitAnswer remote s (some t)).state.session = s.session ∧
    (submitAnswer remote s (some t)).state.isLoading = false ∧
    (submitAnswer remote s (some t)).result = none := by
  have hb : isBlankAnswer (some t) = false := by
    rw [isBlankAnswer_eq_whitespaceOnly]; exact ht
  simp only [submitAnswer, hs, hb, Option.getD_some, hf, submitAnswerPending]
  refine ⟨rfl, ⟨_, rfl, ?_⟩, rfl, rfl, rfl, rfl⟩
  exact messageOr_ne_empty err _ (by decide)

/-- C8, at a service that fails without a message. -/
theorem submitAnswer_remote_failure_witness :
    threadIdOf (sampleState 1).session = some "thread-1" ∧
    whitespaceOnly (some "A BFS explores level by level.") = false ∧
    (submitAnswer (failingRemote none) (sampleState 1)
      (some "A BFS explores level by level.")).state.status = .questioning ∧
    (submitAnswer (failingRemote none) (sampleState 1)
      (some "A BFS explores level by level.")).state.currentQuestion
        = (sampleState 1).currentQuestion :=
  have h := submitAnswer_remote_failure (failingRemote none) (sampleState 1)
    "A BFS explores level by level." "thread-1" { message := none } (by decide) (by decide) rfl
  ⟨by decide, by decide, h.1, h.2.2.1⟩

/-- Below 2^53 the JavaScript sum `n + 1` is exact. -/
theorem jsAdd_one_of_lt (n : Nat) (h : n < 2 ^ 53) : jsAdd n 1 = n + 1 := by
  unfold jsAdd
  by_cases h1 : n + 1 < 2 ^ 53
  · have hu : ulpOf (n + 1) (n + 1) = 1 := by
      show (if n + 1 < 2 ^ 53 then 1 else 2 * ulpOf n ((n + 1) / 2)) = 1
      rw [if_pos h1]
    simp only [roundToNumber, hu, Nat.mod_one, Nat.div_one, Nat.mul_one, Nat.mul_zero]
    simp
  · have : n + 1 = 2 ^ 53 := by omega
    rw [this]
    decide

/-- C9, as stated, fails: when the current question has the ordinal
n = 2^53 = 9007199254740992 and the next question is not a follow-up, the
JavaScript sum n + 1 rounds back to n, so the new question_number is n and
not n + 1. -/
theorem submitAnswer_ordinal_beyond_exact :
    (submitAnswer
        (sampleRemote { question := "What is DFS?", question_number := none,
                        is_followup := false } { next_question := none, has_followup := false })
        (sampleState 9007199254740992)
        (some "A BFS explores level by level.")).state.currentQuestion =
      some { question := "What is DFS?", question_number := some 9007199254740992,
             is_followup := false } ∧
    (submitAnswer
        (sampleRemote { question := "What is DFS?", question_number := none,
                        is_followup := false } { next_question := none, has_followup := false })
        (sampleState 9007199254740992)
        (some "A BFS explores level by level.")).state.currentQuestion ≠
      some { question := "What is DFS?", question_number := some (9007199254740992 + 1),
             is_followup := false } := by
  decide

/-- C9 (amended): when the submission succeeds and the next question q is
fetched while the current question has ordinal n, with n at least 1 and below
2^53, the new currentQuestion carries the text and the follow-up flag of q,
and its question_number is n if q is a follow-up and n + 1 otherwise, whatever
question_number the service reported for q. -/
theorem submitAnswer_ordinal (remote : Remote) (s : InterviewState) (t tid : String)
    (response : AnswerResponse) (q cur : Question) (n : Nat)
    (hs : threadIdOf s.session = some tid)
    (ht : whitespaceOnly (some t) = false)
    (hok : remote.submitAnswer tid t = .ok response)
    (hq : remote.getQuestion tid = .ok q)
    (hcur : s.currentQuestion = some cur) (hn : cur.question_number = some n)
    (h1 : 1 ≤ n) (h2 : n < 2 ^ 53) :
    (submitAnswer remote s (some t)).state.currentQuestion =
      some { question := q.question,
             question_number := some (if q.is_followup then n else n + 1),
             is_followup := q.is_followup } := by
  have hb : isBlankAnswer (some t) = false := by
    rw [isBlankAnswer_eq_whitespaceOnly]; exact ht
  have hn0 : n ≠ 0 := by omega
  have hadd := jsAdd_one_of_lt n h2
  simp [submitAnswer, hs, hb, hok, hq, submitAnswerPending, nextQuestionOf,
    questionNumberOr, hcur, hn, hn0, hadd]

/-- C9 (amended), on the scenario of the specification: from ordinal 1 a follow-up (that
the service numbers 7) keeps ordinal 1, and a later question that is not a
follow-up gives ordinal 2. -/
theorem submitAnswer_ordinal_witness :
    (submitAnswer
        (sampleRemote { question := "Why a queue?", question_number := some 7,
                        is_followup := true } { next_question := none, has_followup := false })
        (sampleState 1) (some "A BFS explores level by level.")).state.currentQuestion =
      some { question := "Why a queue?", question_number := some 1, is_followup := true } ∧
    (submitAnswer
        (sampleRemote { question := "What is DFS?", question_number := none,
                        is_followup := false } { next_question := none, has_followup := false })
        (submitAnswer
          (sampleRemote { question := "Why a queue?", question_number := some 7,
                          is_followup := true } { next_question := none, has_followup := false })
          (sampleState 1) (some "A BFS explores level by level.")).state
        (some "It holds the frontier.")).state.currentQuestion =
      some { question := "What is DFS?", question_number := some 2, is_followup := false } :=
  ⟨submitAnswer_ordinal
      (sampleRemote { question := "Why a queue?", question_number := some 7,
                      is_followup := true } { next_question := none, has_followup := false })
      (sampleState 1) "A BFS explores level by level." "thread-1" { body := "ok" }
      { question := "Why a queue?", question_number := some 7, is_followup := true }
      { question := "What is BFS?", question_number := some 1, is_followup := false } 1
      rfl (by decide) rfl rfl rfl rfl (by decide) (by decide),
   submitAnswer_ordinal
      (sampleRemote { question := "What is DFS?", question_number := none,
                      is_followup := false } { next_question := none, has_followup := false })
      (submitAnswer
        (sampleRemote { question := "Why a queue?", question_number := some 7,
                        is_followup := true } { next_question := none, has_followup := false })
        (sampleState 1) (some "A BFS explores level by level.")).state
      "It holds the frontier." "thread-1" { body := "ok" }
      { question := "What is DFS?", question_number := none, is_followup := false }
      { question := "Why a queue?", question_number := some 1, is_followup := true } 1
      (by decide) (by decide) rfl rfl (by decide) rfl (by decide) (by decide)⟩

/-- C10, on the code: approveAssessment with the action "approve" and a
response that carries a next question flagged as a follow-up, called while the
current question has ordinal 1, adopts the text and the flag and sets status
to questioning, but numbers the question 2, not 1; submitAnswer given the same
follow-up from the same state keeps ordinal 1. -/
theorem approveAssessment_followup_ordinal :
    (approveAssessment
        (sampleRemote { question := "Why a queue?", question_number := none,
                        is_followup := true }
                      { next_question := some "Why a queue?", has_followup := true })
        (sampleState 1) "approve").state.currentQuestion =
      some { question := "Why a queue?", question_number := some 2, is_followup := true } ∧
    (approveAssessment
        (sampleRemote { question := "Why a queue?", question_number := none,
                        is_followup := true }
                      { next_question := some "Why a queue?", has_followup := true })
        (sampleState 1) "approve").state.status = .questioning ∧
    (submitAnswer
        (sampleRemote { question := "Why a queue?", question_number := none,
                        is_followup := true }
                      { next_question := some "Why a queue?", has_followup := true })
        (sampleState 1) (some "A BFS explores level by level.")).state.currentQuestion =
      some { question := "Why a queue?", question_number := some 1, is_followup := true } := by
  decide

/-! ## The session controller: `startInterview` -/

/-- C11, on the code: when session creation succeeds and the fetch of the first
question fails, startInterview ends with status idle, a non-empty error,
isLoading false and the result null, but the session, null before the call,
holds the record of the service afterwards; when session creation itself fails,
the session stays null. -/
theorem startInterview_question_failure_keeps_session :
    (startInterview (questionlessRemote (some "Question service unavailable"))
        InterviewState.initial "Graph Algorithms" true).state.session = some sampleSession ∧
    (startInterview (questionlessRemote (some "Question service unavailable"))
        InterviewState.initial "Graph Algorithms" true).state.status = .idle ∧
    (startInterview (questionlessRemote (some "Question service unavailable"))
        InterviewState.initial "Graph Algorithms" true).state.error
      = some "Question service unavailable" ∧
    (startInterview (questionlessRemote (some "Question service unavailable"))
        InterviewState.initial "Graph Algorithms" true).state.isLoading = false ∧
    (startInterview (questionlessRemote (some "Question service unavailable"))
        InterviewState.initial "Graph Algorithms" true).result = none ∧
    (startInterview (failingRemote (some "Question service unavailable"))
        InterviewState.initial "Graph Algorithms" true).state.session = none := by
  decide

/-- C12: when startInterview succeeds, the service returning the session record
r and then the question q for the thread_id of r, then afterwards session is r,
currentQuestion is q, status is questioning, error is null, isLoading is false
and the operation returns r. -/
theorem startInterview_success (remote : Remote) (s : InterviewState) (topic : String)
    (useMaterials : Bool) (r : Session) (q : Question)
    (hstart : remote.startInterview topic useMaterials = .ok r)
    (hq : remote.getQuestion (threadIdText r.thread_id) = .ok q) :
    (startInterview remote s topic useMaterials).state.session = some r ∧
    (startInterview remote s topic useMaterials).state.currentQuestion = some q ∧
    (startInterview remote s topic useMaterials).state.status = .questioning ∧
    (startInterview remote s topic useMaterials).state.error = none ∧
    (startInterview remote s topic useMaterials).state.isLoading = false ∧
    (startInterview remote s topic useMaterials).result = some r := by
  simp [startInterview, startInterviewPending, hstart, hq]

/-- C12, at the scenario of the specification: the topic "Graph Algorithms"
with materials, from the initial state. -/
theorem startInterview_success_witness :
    (startInterview
        (sampleRemote { question := "What is BFS?", question_number := some 1,
                        is_followup := false } { next_question := none, has_followup := false })
        InterviewState.initial "Graph Algorithms" true).state.session = some sampleSession ∧
    (startInterview
        (sampleRemote { question := "What is BFS?", question_number := some 1,
                        is_followup := false } { next_question := none, has_followup := false })
        InterviewState.initial "Graph Algorithms" true).state.status = .questioning :=
  have h := startInterview_success
    (sampleRemote { question := "What is BFS?", question_number := some 1,
                    is_followup := false } { next_question := none, has_followup := false })
    InterviewState.initial "Graph Algorithms" true sampleSession
    { question := "What is BFS?", question_number := some 1, is_followup := false } rfl rfl
  ⟨h.1, h.2.2.1⟩

/-- C13, as stated, fails: when the service numbers the first question 3, the
current question after a successful startInterview has question_number 3. -/
theorem startInterview_question_number_not_one :
    (startInterview
        (sampleRemote { question := "What is BFS?", question_number := some 3,
                        is_followup := false } { next_question := none, has_followup := false })
        InterviewState.initial "Graph Algorithms" true).result = some sampleSession ∧
    (startInterview
        (sampleRemote { question := "What is BFS?", question_number := some 3,
                        is_followup := false } { next_question := none, has_followup := false })
        InterviewState.initial "Graph Algorithms" true).state.currentQuestion =
      some { question := "What is BFS?", question_number := some 3, is_followup := false } := by
  decide

/-- C13 (amended): after every successful startInterview the current question
is the response q of the service for the first question, unchanged, so its
question_number is the one the service reported: it is 1 exactly when the
service reports 1. -/
theorem startInterview_question_number (remote : Remote) (s : InterviewState) (topic : String)
    (useMaterials : Bool) (r : Session) (q : Question)
    (hstart : remote.startInterview topic useMaterials = .ok r)
    (hq : remote.getQuestion (threadIdText r.thread_id) = .ok q) :
    (startInterview remote s topic useMaterials).state.currentQuestion = some q ∧
    ((startInterview remote s topic useMaterials).state.currentQuestion.bind
        (fun c => c.question_number) = some 1 ↔ q.question_number = some 1) := by
  simp [startInterview, startInterviewPending, hstart, hq]

/-- C13 (amended), at a service that numbers the first question 1. -/
theorem startInterview_question_number_witness :
    (startInterview
        (sampleRemote { question := "What is BFS?", question_number := some 1,
                        is_followup := false } { next_question := none, has_followup := false })
        InterviewState.initial "Graph Algorithms" true).state.currentQuestion.bind
      (fun c => c.question_number) = some 1 :=
  (startInterview_question_number
    (sampleRemote { question := "What is BFS?", question_number := some 1,
                    is_followup := false } { next_question := none, has_followup := false })
    InterviewState.initial "Graph Algorithms" true sampleSession
    { question := "What is BFS?", question_number := some 1, is_followup := false }
    rfl rfl).2.mpr rfl

/-! ## The session controller: the assessment report -/

/-- The operation `startInterview` does not write `assessment`. -/
theorem startInterview_assessment (remote : Remote) (s : InterviewState) (topic : String)
    (useMaterials : Bool) :
    (startInterview remote s topic useMaterials).state.assessment = s.assessment := by
  unfold startInterview
  split
  · split <;> rfl
  · rfl

/-- The operation `submitAnswer` does not write `assessment`. -/
theorem submitAnswer_assessment (remote : Remote) (s : InterviewState)
    (transcript : Option String) :
    (submitAnswer remote s transcript).state.assessment = s.assessment := by
  unfold submitAnswer
  split
  · rfl
  · split
    · rfl
    · dsimp only
      split
      · split <;> rfl
      · rfl

/-- The operation `approveAssessment` does not write `assessment`. -/
theorem approveAssessment_assessment (remote : Remote) (s : InterviewState) (action : String) :
    (approveAssessment remote s action).state.assessment = s.assessment := by
  unfold approveAssessment
  split
  · rfl
  · dsimp only
    split
    · split
      · rfl
      · split <;> rfl
    · rfl

/-- The operation `getAssessment` keeps a report tied to the status
`complete`. -/
theorem getAssessment_keeps_invariant (remote : Remote) (s : InterviewState)
    (h : s.assessment ≠ none → s.status = .complete) :
    (getAssessment remote s).state.assessment ≠ none →
      (getAssessment remote s).state.status = .complete := by
  unfold getAssessment
  split
  · exact h
  · dsimp only
    split
    · intro _; rfl
    · exact h

/-- Under the caller's discipline a report stays tied to the status
`complete` along a sequence of calls. -/
theorem run_keeps_invariant (script : List (Remote × Operation)) :
    ∀ s : InterviewState, (s.assessment ≠ none → s.status = .complete) →
      reportKeptLast s script = true →
      (run s script).assessment ≠ none → (run s script).status = .complete := by
  induction script with
  | nil => intro s h _; exact h
  | cons step rest ih =>
    intro s h hd
    simp only [reportKeptLast, Bool.and_eq_true] at hd
    obtain ⟨hstep, hrest⟩ := hd
    simp only [run, List.foldl_cons]
    refine ih (perform s step) ?_ hrest
    obtain ⟨remote, op⟩ := step
    cases op with
    | startInterview topic useMaterials =>
      intro hne
      have hnone : s.assessment = none := by simpa using hstep
      simp only [perform, startInterview_assessment, hnone] at hne
      exact absurd rfl hne
    | submitAnswer transcript =>
      intro hne
      have hnone : s.assessment = none := by simpa using hstep
      simp only [perform, submitAnswer_assessment, hnone] at hne
      exact absurd rfl hne
    | approveAssessment action =>
      intro hne
      have hnone : s.assessment = none := by simpa using hstep
      simp only [perform, approveAssessment_assessment, hnone] at hne
      exact absurd rfl hne
    | getAssessment => exact getAssessment_keeps_invariant remote s h
    | endInterview =>
      intro hne
      exfalso
      apply hne
      simp only [perform, endInterview]
      split
      · split <;> rfl
      · rfl

/-- C14, as stated, fails: after a successful startInterview and a successful
getAssessment, a further startInterview leaves the report in place with the
status questioning. -/
theorem assessment_outlives_complete :
    (run InterviewState.initial
      [ (sampleRemote { question := "What is BFS?", question_number := some 1,
                        is_followup := false } { next_question := none, has_followup := false },
         .startInterview "Graph Algorithms" true),
        (sampleRemote { question := "What is BFS?", question_number := some 1,
                        is_followup := false } { next_question := none, has_followup := false },
         .getAssessment),
        (sampleRemote { question := "What is BFS?", question_number := some 1,
                        is_followup := false } { next_question := none, has_followup := false },
         .startInterview "Sorting" true) ]).assessment
      = some { overall_score := 7, total_questions := 3, summary := "" } ∧
    (run InterviewState.initial
      [ (sampleRemote { question := "What is BFS?", question_number := some 1,
                        is_followup := false } { next_question := none, has_followup := false },
         .startInterview "Graph Algorithms" true),
        (sampleRemote { question := "What is BFS?", question_number := some 1,
                        is_followup := false } { next_question := none, has_followup := false },
         .getAssessment),
        (sampleRemote { question := "What is BFS?", question_number := some 1,
                        is_followup := false } { next_question := none, has_followup := false },
         .startInterview "Sorting" true) ]).status = .questioning := by
  decide

/-- C14 (amended): in every controller state reachable from the initial state
by a sequence of startInterview, submitAnswer, approveAssessment, getAssessment
and endInterview calls, with any remote outcomes, in which startInterview,
submitAnswer and approveAssessment are called only while assessment is null,
assessment is non-null only if status is complete. -/
theorem assessment_only_when_complete (script : List (Remote × Operation))
    (h : reportKeptLast InterviewState.initial script = true) :
    (run InterviewState.initial script).assessment ≠ none →
      (run InterviewState.initial script).status = .complete :=
  run_keeps_invariant script InterviewState.initial (fun hne => absurd rfl hne) h

/-- C14 (amended), at the sequence startInterview, submitAnswer, getAssessment
against a service that accepts every call. -/
theorem assessment_only_when_complete_witness :
    reportKeptLast InterviewState.initial
      [ (sampleRemote { question := "What is BFS?", question_number := some 1,
                        is_followup := false } { next_question := none, has_followup := false },
         .startInterview "Graph Algorithms" true),
        (sampleRemote { question := "What is DFS?", question_number := some 2,
                        is_followup := false } { next_question := none, has_followup := false },
         .submitAnswer (some "A BFS explores level by level.")),
        (sampleRemote { question := "What is DFS?", question_number := some 2,
                        is_followup := false } { next_question := none, has_followup := false },
         .getAssessment) ] = true ∧
    (run InterviewState.initial
      [ (sampleRemote { question := "What is BFS?", question_number := some 1,
                        is_followup := false } { next_question := none, has_followup := false },
         .startInterview "Graph Algorithms" true),
        (sampleRemote { question := "What is DFS?", question_number := some 2,
                        is_followup := false } { next_question := none, has_followup := false },
         .submitAnswer (some "A BFS explores level by level.")),
        (sampleRemote { question := "What is DFS?", question_number := some 2,
                        is_followup := false } { next_question := none, has_followup := false },
         .getAssessment) ]).status = .complete :=
  ⟨by decide,
   assessment_only_when_complete
     [ (sampleRemote { question := "What is BFS?", question_number := some 1,
                       is_followup := false } { next_question := none, has_followup := false },
        .startInterview "Graph Algorithms" true),
       (sampleRemote { question := "What is DFS?", question_number := some 2,
                       is_followup := false } { next_question := none, has_followup := false },
        .submitAnswer (some "A BFS explores level by level.")),
       (sampleRemote { question := "What is DFS?", question_number := some 2,
                       is_followup := false } { next_question := none, has_followup := false },
        .getAssessment) ] (by decide) (by decide)⟩

/-! ## The session controller: ending, swallowed and surfaced failures -/

/-- C15: endInterview always fully clears the local state: for every prior
state, whether the remote deletion succeeds or fails, afterwards session,
currentQuestion and assessment are null, status is idle and error is null; the
deletion is attempted only when a session with a thread_id exists. -/
theorem endInterview_clears (remote : Remote) (s : InterviewState) :
    (endInterview remote s).state.session = none ∧
    (endInterview remote s).state.currentQuestion = none ∧
    (endInterview remote s).state.assessment = none ∧
    (endInterview remote s).state.status = .idle ∧
    (endInterview remote s).state.error = none ∧
    (endInterview remote s).calls =
      (match threadIdOf s.session with
       | some threadId => [RemoteCall.endSession threadId]
       | none => []) := by
  unfold endInterview
  split
  · split <;> simp [endInterviewCleared]
  · simp [endInterviewCleared]

/-- C16: when the remote submission of submitAnswer succeeds and the fetch of
the next question fails, the failure is swallowed: afterwards currentQuestion
is unchanged, status is questioning, error is null, isLoading is false, and
the operation returns the submission response. -/
theorem submitAnswer_question_failure_swallowed (remote : Remote) (s : InterviewState)
    (t tid : String) (response : AnswerResponse) (err : ApiError)
    (hs : threadIdOf s.session = some tid)
    (ht : whitespaceOnly (some t) = false)
    (hok : remote.submitAnswer tid t = .ok response)
    (hq : remote.getQuestion tid = .error err) :
    (submitAnswer remote s (some t)).state.currentQuestion = s.currentQuestion ∧
    (submitAnswer remote s (some t)).state.status = .questioning ∧
    (submitAnswer remote s (some t)).state.error = none ∧
    (submitAnswer remote s (some t)).state.isLoading = false ∧
    (submitAnswer remote s (some t)).result = some response := by
  have hb : isBlankAnswer (some t) = false := by
    rw [isBlankAnswer_eq_whitespaceOnly]; exact ht
  simp [submitAnswer, hs, hb, hok, hq, submitAnswerPending]

/-- C16, at a service that accepts the answer and has no further question. -/
theorem submitAnswer_question_failure_swallowed_witness :
    (submitAnswer (answerOnlyRemote (some "No more questions")) (sampleState 1)
      (some "A BFS explores level by level.")).state.currentQuestion
        = (sampleState 1).currentQuestion ∧
    (submitAnswer (answerOnlyRemote (some "No more questions")) (sampleState 1)
      (some "A BFS explores level by level.")).state.status = .questioning :=
  have h := submitAnswer_question_failure_swallowed
    (answerOnlyRemote (some "No more questions")) (sampleState 1)
    "A BFS explores level by level." "thread-1" { body := "ok" }
    { message := some "No more questions" } (by decide) (by decide) rfl rfl
  ⟨h.1, h.2.1⟩

/-- C17: when approveAssessment succeeds with the terminal action
end_interview, status becomes complete and currentQuestion, session and
assessment are unchanged, whether or not the response carries a next
question. -/
theorem approveAssessment_end_interview (remote : Remote) (s : InterviewState) (tid : String)
    (response : ApproveResponse)
    (hs : threadIdOf s.session = some tid)
    (hok : remote.approveAssessment tid "end_interview" = .ok response) :
    (approveAssessment remote s "end_interview").state.status = .complete ∧
    (approveAssessment remote s "end_interview").state.currentQuestion = s.currentQuestion ∧
    (approveAssessment remote s "end_interview").state.session = s.session ∧
    (approveAssessment remote s "end_interview").state.assessment = s.assessment := by
  simp [approveAssessment, hs, hok, approveAssessmentPending]

/-- C17, at a response that carries a next question. -/
theorem approveAssessment_end_interview_witness :
    (approveAssessment
        (sampleRemote { question := "What is DFS?", question_number := some 2,
                        is_followup := false }
                      { next_question := some "What is DFS?", has_followup := false })
        (sampleState 1) "end_interview").state.status = .complete ∧
    (approveAssessment
        (sampleRemote { question := "What is DFS?", question_number := some 2,
                        is_followup := false }
                      { next_question := some "What is DFS?", has_followup := false })
        (sampleState 1) "end_interview").state.currentQuestion
      = (sampleState 1).currentQuestion :=
  have h := approveAssessment_end_interview
    (sampleRemote { question := "What is DFS?", question_number := some 2,
                    is_followup := false }
                  { next_question := some "What is DFS?", has_followup := false })
    (sampleState 1) "thread-1" { next_question := some "What is DFS?", has_followup := false }
    (by decide) rfl
  ⟨h.1, h.2.1⟩

/-- C18: when getAssessment is called with an existing session and the remote
call succeeds with the report a, then afterwards assessment is a, status is
complete, error is null, isLoading is false, session and currentQuestion are
unchanged, and the operation returns a. -/
theorem getAssessment_success (remote : Remote) (s : InterviewState) (tid : String)
    (a : Assessment)
    (hs : threadIdOf s.session = some tid)
    (hok : remote.getAssessment tid = .ok a) :
    (getAssessment remote s).state.assessment = some a ∧
    (getAssessment remote s).state.status = .complete ∧
    (getAssessment remote s).state.error = none ∧
    (getAssessment remote s).state.isLoading = false ∧
    (getAssessment remote s).state.session = s.session ∧
    (getAssessment remote s).state.currentQuestion = s.currentQuestion ∧
    (getAssessment remote s).result = some a := by
  simp [getAssessment, hs, hok, getAssessmentPending]

/-- C18, at a controller in status questioning. -/
theorem getAssessment_success_witness :
    (getAssessment
        (sampleRemote { question := "What is DFS?", question_number := some 2,
                        is_followup := false } { next_question := none, has_followup := false })
        (sampleState 1)).state.assessment
      = some { overall_score := 7, total_questions := 3, summary := "" } ∧
    (getAssessment
        (sampleRemote { question := "What is DFS?", question_number := some 2,
                        is_followup := false } { next_question := none, has_followup := false })
        (sampleState 1)).state.status = .complete :=
  have h := getAssessment_success
    (sampleRemote { question := "What is DFS?", question_number := some 2,
                    is_followup := false } { next_question := none, has_followup := false })
    (sampleState 1) "thread-1" { overall_score := 7, total_questions := 3, summary := "" }
    (by decide) rfl
  ⟨h.1, h.2.1⟩

/-- C19: a failed approveAssessment or getAssessment does not change the
status: when the remote call of either operation fails, or the session is
missing, then status, currentQuestion, assessment and session are as before
the call, error is a non-empty message, and the operation returns null. -/
theorem failed_assessment_calls_keep_status (remote : Remote) (s : InterviewState)
    (action : String) :
    ((∀ tid, threadIdOf s.session = some tid →
        ∃ err, remote.approveAssessment tid action = .error err) →
     (approveAssessment remote s action).state.status = s.status ∧
     (approveAssessment remote s action).state.currentQuestion = s.currentQuestion ∧
     (approveAssessment remote s action).state.assessment = s.assessment ∧
     (approveAssessment remote s action).state.session = s.session ∧
     (∃ m, (approveAssessment remote s action).state.error = some m ∧ m ≠ "") ∧
     (approveAssessment remote s action).result = none) ∧
    ((∀ tid, threadIdOf s.session = some tid →
        ∃ err, remote.getAssessment tid = .error err) →
     (getAssessment remote s).state.status = s.status ∧
     (getAssessment remote s).state.currentQuestion = s.currentQuestion ∧
     (getAssessment remote s).state.assessment = s.assessment ∧
     (getAssessment remote s).state.session = s.session ∧
     (∃ m, (getAssessment remote s).state.error = some m ∧ m ≠ "") ∧
     (getAssessment remote s).result = none) := by
  constructor
  · intro ha
    cases hs : threadIdOf s.session with
    | none => simp [approveAssessment, hs]
    | some tid =>
      obtain ⟨ea, hea⟩ := ha tid hs
      have hma := messageOr_ne_empty ea "Failed to process approval" (by decide)
      simp [approveAssessment, hs, hea, approveAssessmentPending, hma]
  · intro hg
    cases hs : threadIdOf s.session with
    | none => simp [getAssessment, hs]
    | some tid =>
      obtain ⟨eg, heg⟩ := hg tid hs
      have hmg := messageOr_ne_empty eg "Failed to get assessment" (by decide)
      simp [getAssessment, hs, heg, getAssessmentPending, hmg]

/-- C19, at a service whose calls fail without a message, from status
questioning: a failed getAssessment does not force the status to complete. -/
theorem failed_assessment_calls_keep_status_witness :
    (approveAssessment (failingRemote none) (sampleState 1) "approve").state.status
      = .questioning ∧
    (getAssessment (failingRemote none) (sampleState 1)).state.status = .questioning ∧
    (getAssessment (failingRemote none) (sampleState 1)).state.assessment = none :=
  have h := failed_assessment_calls_keep_status (failingRemote none) (sampleState 1) "approve"
  have ha := h.1 (fun _ _ => ⟨{ message := none }, rfl⟩)
  have hg := h.2 (fun _ _ => ⟨{ message := none }, rfl⟩)
  ⟨ha.1, hg.1, hg.2.2.1⟩

/-- C20, as stated, fails: when the fetch of the next question inside
submitAnswer fails, submitAnswer does not return null and stores no message in
error: it returns the submission response and error stays null. -/
theorem submitAnswer_question_failure_not_surfaced :
    RemoteCall.getQuestion "thread-1" ∈
      (submitAnswer (answerOnlyRemote (some "No more questions")) (sampleState 1)
        (some "A BFS explores level by level.")).calls ∧
    (answerOnlyRemote (some "No more questions")).getQuestion "thread-1"
      = .error { message := some "No more questions" } ∧
    (submitAnswer (answerOnlyRemote (some "No more questions")) (sampleState 1)
      (some "A BFS explores level by level.")).result = some { body := "ok" } ∧
    (submitAnswer (answerOnlyRemote (some "No more questions")) (sampleState 1)
      (some "A BFS explores level by level.")).state.error = none := by
  refine ⟨by decide, rfl, by decide, by decide⟩

/-- C20 (amended): no controller operation propagates a remote failure to its
caller: for every state and every failing remote call other than the fetch of
the next question inside submitAnswer, the operations startInterview,
submitAnswer, approveAssessment and getAssessment return null with the message
of the failure, or a non-empty fallback message when the failure has none,
stored in error; and endInterview resolves whatever the deletion does. -/
theorem remote_failure_recovered (remote : Remote) (s : InterviewState) (err : ApiError) :
    (∀ topic useMaterials, remote.startInterview topic useMaterials = .error err →
      (startInterview remote s topic useMaterials).result = none ∧
      (startInterview remote s topic useMaterials).state.error
        = some (messageOr err "Failed to start interview")) ∧
    (∀ topic useMaterials r, remote.startInterview topic useMaterials = .ok r →
      remote.getQuestion (threadIdText r.thread_id) = .error err →
      (startInterview remote s topic useMaterials).result = none ∧
      (startInterview remote s topic useMaterials).state.error
        = some (messageOr err "Failed to start interview")) ∧
    (∀ t tid, threadIdOf s.session = some tid → whitespaceOnly (some t) = false →
      remote.submitAnswer tid t = .error err →
      (submitAnswer remote s (some t)).result = none ∧
      (submitAnswer remote s (some t)).state.error
        = some (messageOr err "Failed to submit answer. Please try again.")) ∧
    (∀ action tid, threadIdOf s.session = some tid →
      remote.approveAssessment tid action = .error err →
      (approveAssessment remote s action).result = none ∧
      (approveAssessment remote s action).state.error
        = some (messageOr err "Failed to process approval")) ∧
    (∀ tid, threadIdOf s.session = some tid → remote.getAssessment tid = .error err →
      (getAssessment remote s).result = none ∧
      (getAssessment remote s).state.error
        = some (messageOr err "Failed to get assessment")) ∧
    (endInterview remote s).result = some () ∧
    (∀ fallback, fallback ≠ "" →
      messageOr err fallback ≠ "" ∧
      (∀ m, err.message = some m → m ≠ "" → messageOr err fallback = m) ∧
      (err.message = none ∨ err.message = some "" → messageOr err fallback = fallback)) := by
  refine ⟨?_, ?_, ?_, ?_, ?_, ?_, ?_⟩
  · intro topic useMaterials h
    simp [startInterview, h]
  · intro topic useMaterials r h hq
    simp [startInterview, h, hq]
  · intro t tid hs ht h
    have hb : isBlankAnswer (some t) = false := by
      rw [isBlankAnswer_eq_whitespaceOnly]; exact ht
    simp [submitAnswer, hs, hb, h]
  · intro action tid hs h
    simp [approveAssessment, hs, h]
  · intro tid hs h
    simp [getAssessment, hs, h]
  · unfold endInterview
    split
    · split <;> rfl
    · rfl
  · intro fallback hf
    refine ⟨messageOr_ne_empty err fallback hf, ?_, ?_⟩
    · intro m hm hne
      simp [messageOr, hm, hne]
    · intro h
      rcases h with h | h <;> simp [messageOr, h]

/-- C20 (amended), at a service whose session creation fails with the message
"Network down". -/
theorem remote_failure_recovered_witness :
    (failingRemote (some "Network down")).startInterview "Graph Algorithms" true
      = .error { message := some "Network down" } ∧
    (startInterview (failingRemote (some "Network down")) InterviewState.initial
      "Graph Algorithms" true).result = none ∧
    (startInterview (failingRemote (some "Network down")) InterviewState.initial
      "Graph Algorithms" true).state.error = some "Network down" :=
  have h := (remote_failure_recovered (failingRemote (some "Network down"))
    InterviewState.initial { message := some "Network down" }).1 "Graph Algorithms" true rfl
  ⟨rfl, h.1, h.2.trans (by decide)⟩

/-! ## The transcript engine: recording controls and notifications -/

/-- C21, as stated, fails: stopRecording and a recognition error with the
reason not-allowed set isRecording to false and leave the interim transcript
"hello wor" in place. -/
theorem interim_survives_stop_and_error :
    (stopRecording sampleRecording).state.isRecording = false ∧
    (stopRecording sampleRecording).state.interimTranscript = "hello wor" ∧
    (onerror sampleRecording "not-allowed").isRecording = false ∧
    (onerror sampleRecording "not-allowed").interimTranscript = "hello wor" := by
  decide

/-- C21 (amended): the end notification sets isRecording to false and leaves
interimTranscript empty; stopRecording and the recognition error handler leave
interimTranscript as it was, and it is empty once the end notification that
follows them has been delivered. -/
theorem interim_cleared_by_end (s : SpeechState) (reason : String) :
    (onend s).isRecording = false ∧
    (onend s).interimTranscript = "" ∧
    (stopRecording s).state.interimTranscript = s.interimTranscript ∧
    (onerror s reason).interimTranscript = s.interimTranscript ∧
    (onend (stopRecording s).state).interimTranscript = "" ∧
    (onend (onerror s reason)).interimTranscript = "" := by
  refine ⟨rfl, rfl, ?_, ?_, rfl, rfl⟩
  · unfold stopRecording; split <;> rfl
  · unfold onerror; split_ifs <;> rfl

/-- C22: recognition error classification: the error handler leaves the whole
state unchanged when the reason is no-speech or aborted; sets error to the
microphone-access-denied message and isRecording to false when the reason is
not-allowed; for any other reason sets error to "Error: " followed by the
reason and isRecording to false; and never changes transcript or
interimTranscript. -/
theorem onerror_classification (s : SpeechState) (reason : String) :
    (reason = "no-speech" ∨ reason = "aborted" → onerror s reason = s) ∧
    (reason = "not-allowed" →
      (onerror s reason).error
        = some "Microphone access denied. Please allow microphone access." ∧
      (onerror s reason).isRecording = false) ∧
    (reason ≠ "not-allowed" → reason ≠ "no-speech" → reason ≠ "aborted" →
      (onerror s reason).error = some ("Error: " ++ reason) ∧
      (onerror s reason).isRecording = false) ∧
    (onerror s reason).transcript = s.transcript ∧
    (onerror s reason).interimTranscript = s.interimTranscript := by
  refine ⟨?_, ?_, ?_, ?_, ?_⟩
  · rintro (h | h) <;> subst h <;> simp [onerror]
  · intro h; subst h; simp [onerror]
  · intro h1 h2 h3
    simp [onerror, h1, h2, h3]
  · unfold onerror; split_ifs <;> rfl
  · unfold onerror; split_ifs <;> rfl

/-- C22, at the reasons aborted and network during a recording. -/
theorem onerror_classification_witness :
    onerror sampleRecording "aborted" = sampleRecording ∧
    (onerror sampleRecording "network").error = some "Error: network" ∧
    (onerror sampleRecording "network").isRecording = false :=
  have h := (onerror_classification sampleRecording "network").2.2.1
    (by decide) (by decide) (by decide)
  ⟨(onerror_classification sampleRecording "aborted").1 (Or.inr rfl),
   h.1.trans (by decide), h.2⟩

/-- C23: when the speech capability is supported, startRecording from any prior
state yields an empty transcript, an empty interimTranscript and a null error,
and leaves isRecording as it was; so it does right after stopRecording;
isRecording becomes true when the start notification of the engine is
delivered, and no other control or handler turns a false isRecording into
true. -/
theorem startRecording_fresh (s : SpeechState) (event : SpeechRecognitionEvent)
    (reason : String) :
    (startRecording true s).state.transcript = "" ∧
    (startRecording true s).state.interimTranscript = "" ∧
    (startRecording true s).state.error = none ∧
    (startRecording true s).state.isRecording = s.isRecording ∧
    (startRecording true (stopRecording s).state).state.transcript = "" ∧
    (startRecording true (stopRecording s).state).state.interimTranscript = "" ∧
    (startRecording true (stopRecording s).state).state.error = none ∧
    (startRecording true (stopRecording s).state).state.isRecording
      = (stopRecording s).state.isRecording ∧
    (onstart (startRecording true s).state).isRecording = true ∧
    (startRecording false s).state.isRecording = s.isRecording ∧
    (onresult s event).isRecording = s.isRecording ∧
    (resetTranscript s).isRecording = s.isRecording ∧
    (onend s).isRecording = false ∧
    (stopRecording s).state.isRecording = (s.isRecording && !s.recognitionRef) ∧
    (onerror s reason).isRecording =
      (s.isRecording && (reason == "no-speech" || reason == "aborted")) := by
  refine ⟨rfl, rfl, rfl, rfl, rfl, rfl, rfl, rfl, rfl, rfl, ?_, rfl, rfl, ?_, ?_⟩
  · simp only [onresult]
    split <;> rfl
  · cases hr : s.recognitionRef <;> simp [stopRecording, hr]
  · by_cases h1 : reason = "not-allowed"
    · subst h1; simp [onerror]
    · by_cases h2 : reason = "no-speech"
      · subst h2; simp [onerror]
      · by_cases h3 : reason = "aborted"
        · subst h3; simp [onerror]
        · simp [onerror, h1, h2, h3]

/-- C24: when the speech capability is not supported, startRecording sets error
to the unsupported message and changes nothing else: transcript,
interimTranscript and isRecording are unchanged, and no recognition session is
created or started. -/
theorem startRecording_unsupported (s : SpeechState) :
    (startRecording false s).state.error
      = some "Speech recognition not supported. Please use Google Chrome." ∧
    (startRecording false s).state.transcript = s.transcript ∧
    (startRecording false s).state.interimTranscript = s.interimTranscript ∧
    (startRecording false s).state.isRecording = s.isRecording ∧
    (startRecording false s).state.recognitionRef = s.recognitionRef ∧
    (startRecording false s).commands = [] :=
  ⟨rfl, rfl, rfl, rfl, rfl, rfl⟩

/-- C25: stopRecording is a no-op when already inactive and is idempotent: for
every state with isRecording false it leaves the state, so transcript,
interimTranscript, isRecording and error, unchanged; and for every state
stopRecording applied twice yields the same state as applied once. -/
theorem stopRecording_idempotent (s : SpeechState) :
    (s.isRecording = false → (stopRecording s).state = s) ∧
    (stopRecording (stopRecording s).state).state = (stopRecording s).state := by
  constructor
  · intro h
    obtain ⟨tr, it, rec, er, ref⟩ := s
    cases ref <;> simp_all [stopRecording]
  · cases hr : s.recognitionRef <;> simp [stopRecording, hr]

/-- C25, at the state a stopped recording leaves behind. -/
theorem stopRecording_idempotent_witness :
    (stopRecording sampleRecording).state.isRecording = false ∧
    (stopRecording (stopRecording sampleRecording).state).state
      = (stopRecording sampleRecording).state :=
  ⟨by decide,
   (stopRecording_idempotent (stopRecording sampleRecording).state).1 (by decide)⟩

/-- C26: resetTranscript sets transcript and interimTranscript to the empty
string and error to null, and leaves isRecording and the recognition session
unchanged, for every prior state. -/
theorem resetTranscript_frame (s : SpeechState) :
    (resetTranscript s).transcript = "" ∧
    (resetTranscript s).interimTranscript = "" ∧
    (resetTranscript s).error = none ∧
    (resetTranscript s).isRecording = s.isRecording ∧
    (resetTranscript s).recognitionRef = s.recognitionRef :=
  ⟨rfl, rfl, rfl, rfl, rfl⟩

/-! ## The session controller: the session record and `isLoading` -/

/-- The operation `submitAnswer` does not write `session`. -/
theorem submitAnswer_session (remote : Remote) (s : InterviewState)
    (transcript : Option String) :
    (submitAnswer remote s transcript).state.session = s.session := by
  unfold submitAnswer
  split
  · rfl
  · split
    · rfl
    · dsimp only
      split
      · split <;> rfl
      · rfl

/-- The operation `approveAssessment` does not write `session`. -/
theorem approveAssessment_session (remote : Remote) (s : InterviewState) (action : String) :
    (approveAssessment remote s action).state.session = s.session := by
  unfold approveAssessment
  split
  · rfl
  · dsimp only
    split
    · split
      · rfl
      · split <;> rfl
    · rfl

/-- The operation `getAssessment` does not write `session`. -/
theorem getAssessment_session (remote : Remote) (s : InterviewState) :
    (getAssessment remote s).state.session = s.session := by
  unfold getAssessment
  split
  · rfl
  · dsimp only
    split <;> rfl

/-- C27: the session record is stable for the lifetime of the session:
submitAnswer, approveAssessment, getAssessment and clearError never modify
session, on any outcome; startInterview sets it to the response of the service
once session creation succeeds and leaves it as it was otherwise, and
endInterview sets it to null. -/
theorem session_stable (remote : Remote) (s : InterviewState) (transcript : Option String)
    (action topic : String) (useMaterials : Bool) :
    (submitAnswer remote s transcript).state.session = s.session ∧
    (approveAssessment remote s action).state.session = s.session ∧
    (getAssessment remote s).state.session = s.session ∧
    (clearError s).session = s.session ∧
    (startInterview remote s topic useMaterials).state.session =
      (match remote.startInterview topic useMaterials with
       | .ok response => some response
       | .error _ => s.session) ∧
    (endInterview remote s).state.session = none := by
  refine ⟨submitAnswer_session remote s transcript, approveAssessment_session remote s action,
    getAssessment_session remote s, rfl, ?_, ?_⟩
  · unfold startInterview
    split
    · split <;> rfl
    · rfl
  · unfold endInterview
    split
    · split <;> rfl
    · rfl

/-- C29: isLoading never stays set after an operation finishes: for every
prior state and every outcome it is false when startInterview, submitAnswer
past its local validation, approveAssessment or getAssessment with a session
completes; and it is true, with error null, in the state in which each of them
issues its first remote call. -/
theorem isLoading_released (remote : Remote) (s : InterviewState) :
    (∀ topic useMaterials,
      (startInterview remote s topic useMaterials).state.isLoading = false) ∧
    (∀ transcript, threadIdOf s.session ≠ none → whitespaceOnly transcript = false →
      (submitAnswer remote s transcript).state.isLoading = false) ∧
    (∀ action, threadIdOf s.session ≠ none →
      (approveAssessment remote s action).state.isLoading = false) ∧
    (threadIdOf s.session ≠ none → (getAssessment remote s).state.isLoading = false) ∧
    ((startInterviewPending s).isLoading = true ∧ (startInterviewPending s).error = none) ∧
    ((submitAnswerPending s).isLoading = true ∧ (submitAnswerPending s).error = none) ∧
    ((approveAssessmentPending s).isLoading = true ∧
      (approveAssessmentPending s).error = none) ∧
    ((getAssessmentPending s).isLoading = true ∧ (getAssessmentPending s).error = none) := by
  refine ⟨?_, ?_, ?_, ?_, ⟨rfl, rfl⟩, ⟨rfl, rfl⟩, ⟨rfl, rfl⟩, ⟨rfl, rfl⟩⟩
  · intro topic useMaterials
    unfold startInterview
    split
    · split <;> rfl
    · rfl
  · intro transcript hs ht
    have hb : isBlankAnswer transcript = false := by
      rw [isBlankAnswer_eq_whitespaceOnly]; exact ht
    cases hs1 : threadIdOf s.session with
    | none => exact absurd hs1 hs
    | some tid =>
      cases h1 : remote.submitAnswer tid (transcript.getD "") with
      | error e => simp [submitAnswer, hs1, hb, h1]
      | ok r => cases h2 : remote.getQuestion tid <;> simp [submitAnswer, hs1, hb, h1, h2]
  · intro action hs
    unfold approveAssessment
    split
    · rename_i h; exact absurd h hs
    · dsimp only
      split
      · split
        · rfl
        · split <;> rfl
      · rfl
  · intro hs
    unfold getAssessment
    split
    · rename_i h; exact absurd h hs
    · dsimp only
      split <;> rfl

/-- C29, at a submission whose remote call fails and at one whose
next-question fetch fails. -/
theorem isLoading_released_witness :
    (submitAnswer (failingRemote none) (sampleState 1)
      (some "A BFS explores level by level.")).state.isLoading = false ∧
    (submitAnswer (answerOnlyRemote none) (sampleState 1)
      (some "A BFS explores level by level.")).state.isLoading = false :=
  ⟨(isLoading_released (failingRemote none) (sampleState 1)).2.1
      (some "A BFS explores level by level.") (by decide) (by decide),
   (isLoading_released (answerOnlyRemote none) (sampleState 1)).2.1
      (some "A BFS explores level by level.") (by decide) (by decide)⟩

/-! ## The error convention of `request` -/

/-- C28, as stated, fails: a non-2xx response whose body is the JSON value null
parses and has no detail, yet request rejects with a TypeError, not with the
message "Request failed: 500"; and a 2xx response without a JSON body makes
request reject instead of returning a parsed body. -/
theorem request_null_body_type_error :
    request (fun _ => "") { status := 500, json := some .null } = .error .typeError ∧
    request (fun _ => "") { status := 204, json := none } = .error .jsonRejected :=
  ⟨rfl, rfl⟩

/-- C28 (amended): for every non-2xx response, request fails with an error
whose message is the detail of the body when the body is a JSON object with a
non-empty string detail; is "Unknown error" when the body is absent or is not
JSON; and is "Request failed: " followed by the status code when the body
parses to a value other than null whose detail is absent or falsy; for every
2xx response whose body parses as JSON it returns the parsed body. -/
theorem request_error_convention (toText : JsonValue → String) (response : HttpResponse) :
    (response.ok = false →
      (∀ fields d, response.json = some (.object fields) →
        fields.lookup "detail" = some (.string d) → d ≠ "" →
        request toText response = .error (.error d)) ∧
      (response.json = none →
        request toText response = .error (.error "Unknown error")) ∧
      (∀ body, response.json = some body →
        (detailOf body = some none ∨
          ∃ v, detailOf body = some (some v) ∧ truthy v = false) →
        request toText response
          = .error (.error ("Request failed: " ++ toString response.status)))) ∧
    (response.ok = true →
      ∀ body, response.json = some body → request toText response = .ok body) := by
  constructor
  · intro hok
    refine ⟨?_, ?_, ?_⟩
    · intro fields d hj hd hne
      simp [request, hok, hj, detailOf, hd, truthy, hne, messageText]
    · intro hj
      simp [request, hok, hj, detailOf, List.lookup, truthy, messageText]
    · intro body hj hd
      rcases hd with hd | ⟨v, hd, hv⟩
      · simp [request, hok, hj, hd]
      · simp [request, hok, hj, hd, hv]
  · intro hok body hj
    simp [request, hok, hj]

/-- C28 (amended), at a 404 response with the detail "Session not found", at a
404 response with an empty object, and at a 200 response. -/
theorem request_error_convention_witness :
    request (fun _ => "")
        { status := 404, json := some (.object [("detail", .string "Session not found")]) }
      = .error (.error "Session not found") ∧
    request (fun _ => "") { status := 404, json := some (.object []) }
      = .error (.error "Request failed: 404") ∧
    request (fun _ => "") { status := 200, json := some (.object [("status", .string "ok")]) }
      = .ok (.object [("status", .string "ok")]) :=
  have h := request_error_convention (fun _ => "")
    { status := 404, json := some (.object [("detail", .string "Session not found")]) }
  have h2 := request_error_convention (fun _ => "") { status := 404, json := some (.object []) }
  have h3 := request_error_convention (fun _ => "")
    { status := 200, json := some (.object [("status", .string "ok")]) }
  ⟨(h.1 rfl).1 _ "Session not found" rfl rfl (by decide),
   ((h2.1 rfl).2.2 _ rfl (Or.inl rfl)).trans
     (congrArg (fun m => Except.error (RequestFailure.error m))
       (by decide : "Request failed: " ++ toString 404 = "Request failed: 404")),
   h3.2 rfl _ rfl⟩

end InterviewApp
